import Mathlib

set_option maxHeartbeats 1000000

/-!
Verification of the atom-core UI runtime: a shallow embedding of the
component mounting lifecycle (Component.ts, lifecycle/beforeMount.ts,
lifecycle/didMount.ts), the DOM materialization engine (createDOMNode),
the post-insertion afterMount traversal (render.ts / DOMUtils.ts) and the
JSX adapter layer (jsx-runtime.ts, createElement, collectChildren),
together with proofs of the lifecycle ordering, error-isolation and
flattening properties.
-/

/-- Outcome of a user-supplied didMount hook body: returns normally,
throws synchronously, or returns a promise that later rejects. -/
inductive DidOutcome where
  | ok
  | throws
  | asyncRejects
deriving Repr, DecidableEq

/-- Outcome of a user-supplied afterMount hook body: returns normally,
throws synchronously, or returns a promise that rejects when awaited. -/
inductive AfterOutcome where
  | ok
  | throws
  | rejects
deriving Repr, DecidableEq

/-- Observable events emitted while mounting: lifecycle-hook calls on a
numbered component instance, the container insertion performed by
`render`, attachment cleanup by the post-insertion traversal, and
console.error logging with its fixed message tag. -/
inductive Ev where
  | ctor (id : Nat)
  | beforeMountCall (id : Nat)
  | renderCall (id : Nat)
  | didMountCall (id : Nat)
  | domInsert
  | afterMountCall (id : Nat)
  | attachCleared (id : Nat)
  | log (tag : String)
deriving Repr, DecidableEq

/-- Private per-instance phase flags of AtomComponent
(_constructorCalled, _beforeMountCalled, _didMountCalled,
_afterMountCalled, _isMounted, _isMounting). -/
structure Flags where
  constructorCalled : Bool
  beforeMountCalled : Bool
  didMountCalled : Bool
  afterMountCalled : Bool
  isMounted : Bool
  isMounting : Bool
deriving Repr, DecidableEq

/-- Flag record of an instance immediately after the AtomComponent
constructor body finishes (it sets _constructorCalled := true; every
other flag still has its field initializer value false). -/
def freshFlags : Flags :=
  { constructorCalled := true
    beforeMountCalled := false
    didMountCalled := false
    afterMountCalled := false
    isMounted := false
    isMounting := false }

/-- executeBeforeMount (lifecycle/beforeMount.ts): enter the mount phase,
run the hook when the guard allows it (marking it consumed first), catch
and log a synchronous throw under the fixed tag, and always exit the
mount phase in the finally block.  `hasBeforeMount` records whether the
subclass defines the hook, `bmThrows` whether its body throws. -/
def executeBeforeMount (hasBeforeMount bmThrows : Bool) (id : Nat)
    (f : Flags) : Flags × List Ev :=
  let f1 := { f with isMounting := true }
  let canInvoke := !f1.beforeMountCalled && hasBeforeMount
  if canInvoke then
    let f2 := { f1 with beforeMountCalled := true }
    let evs := [Ev.beforeMountCall id] ++
      (if bmThrows then [Ev.log "beforeMount() error:"] else [])
    ({ f2 with isMounting := false }, evs)
  else
    ({ f1 with isMounting := false }, [])

/-- executeDidMount (lifecycle/didMount.ts): when the guard allows it,
mark the hook consumed, call it, and mark the instance mounted right
after the call returns; a synchronous throw is caught, logged under
"didMount() error:" and the instance is still marked mounted; a thenable
result gets a rejection handler that logs under "Async didMount() error:"
(the log event is emitted here although in real time it fires on a later
microtask; no claim depends on its position). -/
def executeDidMount (hasDidMount : Bool) (dout : DidOutcome) (id : Nat)
    (f : Flags) : Flags × List Ev :=
  let canInvoke := !f.didMountCalled && hasDidMount
  if canInvoke then
    let f1 := { f with didMountCalled := true }
    match dout with
    | .ok => ({ f1 with isMounted := true }, [Ev.didMountCall id])
    | .throws =>
        ({ f1 with isMounted := true },
          [Ev.didMountCall id, Ev.log "didMount() error:"])
    | .asyncRejects =>
        ({ f1 with isMounted := true },
          [Ev.didMountCall id, Ev.log "Async didMount() error:"])
  else (f, [])

/-- Shallow JS object spread `{...base, ...overlay}` on association
lists: entries of `base` whose key also appears in `overlay` are
overridden, every other entry is kept. -/
def spreadMerge {α : Type} (base overlay : List (String × α)) :
    List (String × α) :=
  base.filter (fun p => (overlay.find? (fun q => q.1 == p.1)).isNone)
    ++ overlay

/-- Property read `obj[k]` on an association list. -/
def lookupProp {α : Type} (l : List (String × α)) (k : String) :
    Option α :=
  (l.find? (fun p => p.1 == k)).map (·.2)

/-- setState (Component.ts): reject when the constructor has not
completed; reject during the constructor body (neither mounting nor
mounted) with the message directing the caller to assign state directly;
otherwise shallow-merge the patch into the state.  The returned Bool
records whether a re-render was scheduled: the mounting branch returns
early and the mounted branch has no re-render mechanism, so it is false
on every success path. -/
def setState {α : Type} (f : Flags) (state patch : List (String × α)) :
    Except String (List (String × α) × Bool) :=
  if !f.constructorCalled then
    .error ("setState() called on component before constructor completed. " ++
      "Make sure to call super(props) in your constructor.")
  else if !f.isMounted && !f.isMounting then
    .error "Cannot call setState() during constructor. Use this.state = \x7b...\x7d instead."
  else
    let newState := spreadMerge state patch
    if f.isMounting then .ok (newState, false)
    else .ok (newState, false)

theorem find?_filter_of_pred {α : Type} (l : List (String × α))
    (q : String × α → Bool) (k : String)
    (h : ∀ p : String × α, p.1 = k → q p = true) :
    (l.filter q).find? (fun p => p.1 == k) = l.find? (fun p => p.1 == k) := by
  induction l with
  | nil => simp
  | cons x xs ih =>
      by_cases hx : x.1 = k
      · have hq : q x = true := h x hx
        simp [List.filter_cons, hq, List.find?, hx]
      · have hbeq : (x.1 == k) = false := by
          simp [hx]
        by_cases hqx : q x = true
        · simp [List.filter_cons, hqx, List.find?, hbeq, ih]
        · simp only [Bool.not_eq_true] at hqx
          simp [List.filter_cons, hqx, List.find?, hbeq, ih]

/-- Lookup on a spread merge: the overlay wins on keys it defines, the
base is consulted otherwise. -/
theorem lookupProp_spreadMerge {α : Type}
    (base overlay : List (String × α)) (k : String) :
    lookupProp (spreadMerge base overlay) k =
      (match lookupProp overlay k with
       | some v => some v
       | none => lookupProp base k) := by
  unfold lookupProp spreadMerge
  rw [List.find?_append]
  cases hov : overlay.find? (fun p => p.1 == k) with
  | some v =>
      cases hb : (base.filter
          (fun p => (overlay.find? (fun q => q.1 == p.1)).isNone)).find?
          (fun p => p.1 == k) with
      | some w =>
          exfalso
          have hmem := List.mem_of_find?_eq_some hb
          have hpred := List.find?_some hb
          have hw : w.1 = k := by
            simpa using hpred
          have hfil := List.of_mem_filter hmem
          rw [hw] at hfil
          rw [hov] at hfil
          simp at hfil
      | none => simp
  | none =>
      have : (base.filter
          (fun p => (overlay.find? (fun q => q.1 == p.1)).isNone)).find?
          (fun p => p.1 == k) = base.find? (fun p => p.1 == k) := by
        apply find?_filter_of_pred
        intro p hp
        rw [hp, hov]
        rfl
      rw [this]
      cases hbase : base.find? (fun p => p.1 == k) <;> simp

/-- C3.  setState shallow-merges the patch into the current state
producing a new state value; it fails when the constructor has not
completed; it fails when the instance is neither mounting nor mounted,
with the exact message directing the caller to assign state directly in
the constructor; and while the instance is mounting the merge is applied
and no re-render is scheduled (the Bool is false). -/
theorem setState_contract {α : Type} (f : Flags)
    (state patch : List (String × α)) :
    (f.constructorCalled = false →
      setState f state patch =
        .error ("setState() called on component before constructor completed. " ++
          "Make sure to call super(props) in your constructor.")) ∧
    (f.constructorCalled = true → f.isMounted = false → f.isMounting = false →
      setState f state patch =
        .error "Cannot call setState() during constructor. Use this.state = \x7b...\x7d instead.") ∧
    (f.constructorCalled = true → f.isMounting = true →
      setState f state patch = .ok (spreadMerge state patch, false)) ∧
    (∀ res, setState f state patch = .ok res →
      res.1 = spreadMerge state patch ∧ res.2 = false) ∧
    (∀ k, lookupProp (spreadMerge state patch) k =
      (match lookupProp patch k with
       | some v => some v
       | none => lookupProp state k)) := by
  refine ⟨?_, ?_, ?_, ?_, ?_⟩
  · intro h; simp [setState, h]
  · intro h1 h2 h3; simp [setState, h1, h2, h3]
  · intro h1 h2; simp [setState, h1, h2]
  · intro res hres
    rcases f with ⟨cc, bm, dm, am, mt, mg⟩
    cases cc <;> cases mt <;> cases mg <;> simp [setState] at hres <;>
      exact ⟨by rw [← hres], by rw [← hres]⟩
  · intro k; exact lookupProp_spreadMerge state patch k

/-- Witness for C3 at concrete inputs: an instance mid-constructor, one
neither mounting nor mounted, and a mounting instance merging a patch. -/
theorem setState_contract_witness :
    (setState (α := Int) ⟨false, false, false, false, false, false⟩ [] [] =
      .error ("setState() called on component before constructor completed. " ++
        "Make sure to call super(props) in your constructor.")) ∧
    (setState (α := Int) freshFlags [] [] =
      .error "Cannot call setState() during constructor. Use this.state = \x7b...\x7d instead.") ∧
    (setState (α := Int) { freshFlags with isMounting := true }
        [("a", 1), ("b", 2)] [("b", 9)] =
      .ok (spreadMerge [("a", 1), ("b", 2)] [("b", 9)], false)) :=
  ⟨(setState_contract ⟨false, false, false, false, false, false⟩ [] []).1 rfl,
   (setState_contract freshFlags [] []).2.1 rfl rfl rfl,
   (setState_contract { freshFlags with isMounting := true }
      [("a", 1), ("b", 2)] [("b", 9)]).2.2.1 rfl rfl⟩

/-- C5.  When the didMount hook is invocable, the executor marks the
instance mounted in every outcome: a normal return (including a pending
promise), a synchronous throw (logged under "didMount() error:"), and a
thenable whose rejection is logged under "Async didMount() error:" and
never re-thrown (the executor returns normally in all three cases). -/
theorem executeDidMount_contract (dout : DidOutcome) (id : Nat) (f : Flags)
    (h : f.didMountCalled = false) :
    (executeDidMount true dout id f).1.isMounted = true ∧
    (executeDidMount true dout id f).1.didMountCalled = true ∧
    (dout = .ok →
      (executeDidMount true dout id f).2 = [Ev.didMountCall id]) ∧
    (dout = .throws →
      (executeDidMount true dout id f).2 =
        [Ev.didMountCall id, Ev.log "didMount() error:"]) ∧
    (dout = .asyncRejects →
      (executeDidMount true dout id f).2 =
        [Ev.didMountCall id, Ev.log "Async didMount() error:"]) := by
  cases dout <;> simp [executeDidMount, h]

/-- Witness for C5: a freshly constructed instance whose didMount throws
synchronously is still marked mounted and the error is logged. -/
theorem executeDidMount_contract_witness :
    (executeDidMount true .throws 0 freshFlags).1.isMounted = true ∧
    (executeDidMount true .throws 0 freshFlags).1.didMountCalled = true ∧
    (DidOutcome.throws = .ok →
      (executeDidMount true .throws 0 freshFlags).2 = [Ev.didMountCall 0]) ∧
    (DidOutcome.throws = .throws →
      (executeDidMount true .throws 0 freshFlags).2 =
        [Ev.didMountCall 0, Ev.log "didMount() error:"]) ∧
    (DidOutcome.throws = .asyncRejects →
      (executeDidMount true .throws 0 freshFlags).2 =
        [Ev.didMountCall 0, Ev.log "Async didMount() error:"]) :=
  executeDidMount_contract .throws 0 freshFlags rfl

/-- C9.  A subclass without a didMount hook is never marked mounted: the
didMount executor leaves the flags unchanged, so after the full
beforeMount-then-didMount pipeline the instance still has
isMounted = false and isMounting = false, and any later setState call
(for example from its afterMount hook) fails with the
"Cannot call setState() during constructor" error. -/
theorem no_didMount_never_mounted (hasBM bmThrows : Bool)
    (dout : DidOutcome) (id : Nat) (state patch : List (String × Int)) :
    (executeDidMount false dout id
        (executeBeforeMount hasBM bmThrows id freshFlags).1).1 =
      (executeBeforeMount hasBM bmThrows id freshFlags).1 ∧
    (executeDidMount false dout id
        (executeBeforeMount hasBM bmThrows id freshFlags).1).1.isMounted
      = false ∧
    setState
        (executeDidMount false dout id
          (executeBeforeMount hasBM bmThrows id freshFlags).1).1
        state patch =
      .error "Cannot call setState() during constructor. Use this.state = \x7b...\x7d instead." := by
  cases hasBM <;> cases bmThrows <;> cases dout <;>
    simp [executeDidMount, executeBeforeMount, freshFlags, setState]

/-- Values of intrinsic-element props as seen by applyPropsToElement:
either a non-function value (whose JS String(...) coercion is recorded)
or a function value; `refThrows` records whether the function, when
invoked as a ref callback, throws. -/
inductive PropVal where
  | prim (s : String)
  | func (refThrows : Bool)
deriving Repr, DecidableEq

mutual
/-- Children value consumed by the element-construction API and the
materialization engine: null, undefined, booleans, string/number
primitives, arbitrarily nested arrays, intrinsic VNodes (string tag;
props.children is modeled as the separate `children` field with
Child.cundef standing for an absent entry), and component VNodes. -/
inductive Child where
  | cnull
  | cundef
  | cbool (b : Bool)
  | cstr (s : String)
  | cnum (n : Int)
  | carr (xs : List Child)
  | cvel (tag : String) (props : List (String × PropVal)) (children : Child)
  | cvcomp (spec : CompSpec)

/-- Behaviour of a component subclass: which optional lifecycle hooks it
defines, how each hook body behaves when called, and the VNode tree its
render() returns. -/
inductive CompSpec where
  | mk (hasBeforeMount : Bool) (bmThrows : Bool)
      (hasDidMount : Bool) (didOut : DidOutcome)
      (hasAfterMount : Bool) (aftOut : AfterOutcome)
      (renderBody : Child)
end

mutual
/-- collectChildren (utils/functions/collectChildren.ts): recursively
flattens nested child arrays, dropping null, undefined and false
(boolean true is pushed through). -/
def collectChildren : Child → List Child
  | .cnull => []
  | .cundef => []
  | .cbool b => if b then [.cbool true] else []
  | .cstr s => [.cstr s]
  | .cnum n => [.cnum n]
  | .carr xs => collectChildrenList xs
  | .cvel tag props children => [.cvel tag props children]
  | .cvcomp spec => [.cvcomp spec]

/-- Enqueue loop of collectChildren over the elements of an array. -/
def collectChildrenList : List Child → List Child
  | [] => []
  | x :: xs => collectChildren x ++ collectChildrenList xs
end

/-- Runtime values of ordinary (non-children, non-key) props and of
component props/state in the validation model. -/
inductive JsVal where
  | str (s : String)
  | num (n : Int)
  | boolV (b : Bool)
  | nullV
deriving Repr, DecidableEq

/-- Props object handed to the JSX adapters: the reserved children and
key entries plus the remaining properties. -/
structure JProps where
  children : Option Child
  key : Option String
  rest : List (String × JsVal)

/-- VNode produced by the element-construction API: a type (tag string
or component reference, kept generic) plus the final props. -/
structure JVNode (τ : Type) where
  type : τ
  props : JProps

/-- createElement (core/createElement.ts): children passed inside props
win over variadic children; otherwise zero variadic children leave
props.children undefined and one or more become an array; key is read
off props and preserved at the top level of the resulting props. -/
def createElement {τ : Type} (type : τ) (rawProps : Option JProps)
    (spreadChildren : List Child) : JVNode τ :=
  let base := rawProps.getD ⟨none, none, []⟩
  let finalChildren : Option Child :=
    match base.children with
    | some c => some c
    | none =>
        if spreadChildren.isEmpty then none
        else some (.carr spreadChildren)
  { type := type
    props := { children := finalChildren, key := base.key, rest := base.rest } }

/-- jsx (runtime/jsx-runtime.ts): strips children from the props, lets
an explicit key argument override, flattens the children through
collectChildren and hands everything to createElement. -/
def jsx {τ : Type} (type : τ) (props : Option JProps)
    (key : Option String) : JVNode τ :=
  let src := props.getD ⟨none, none, []⟩
  let rest : JProps := ⟨none, src.key, src.rest⟩
  let nextProps : JProps :=
    match key with
    | none => rest
    | some k => { rest with key := some k }
  match src.children with
  | none => createElement type (some nextProps) []
  | some ch => createElement type (some nextProps) (collectChildren ch)

/-- jsxs (runtime/jsx-runtime.ts): textually the same implementation as
jsx — strip children, override key, flatten through collectChildren,
call createElement. -/
def jsxs {τ : Type} (type : τ) (props : Option JProps)
    (key : Option String) : JVNode τ :=
  let src := props.getD ⟨none, none, []⟩
  let rest : JProps := ⟨none, src.key, src.rest⟩
  let nextProps : JProps :=
    match key with
    | none => rest
    | some k => { rest with key := some k }
  match src.children with
  | none => createElement type (some nextProps) []
  | some ch => createElement type (some nextProps) (collectChildren ch)

/-- C8 counterexample.  At the doubly nested children value
[["A", ["B"]], null] the claim predicts that jsx flattens at most one
level (leaving ["B"] nested) and that jsx and jsxs differ; instead jsx
deep-flattens to ["A", "B"], filtering the null, and agrees with jsxs
exactly. -/
theorem jsx_deep_flattens_counterexample :
    jsx (τ := String) "div"
        (some ⟨some (.carr [.carr [.cstr "A", .carr [.cstr "B"]], .cnull]),
          none, []⟩) none =
      jsxs "div"
        (some ⟨some (.carr [.carr [.cstr "A", .carr [.cstr "B"]], .cnull]),
          none, []⟩) none ∧
    (jsx (τ := String) "div"
        (some ⟨some (.carr [.carr [.cstr "A", .carr [.cstr "B"]], .cnull]),
          none, []⟩) none).props.children =
      some (.carr [.cstr "A", .cstr "B"]) :=
  ⟨rfl, rfl⟩

mutual
/-- Deep-flattening property of collectChildren: no element surviving
the flattening is null, undefined, false, or a (nested) array. -/
theorem collectChildren_flat (c : Child) :
    ∀ x ∈ collectChildren c, x ≠ Child.cnull ∧ x ≠ Child.cundef ∧
      x ≠ Child.cbool false ∧ ∀ ys, x ≠ Child.carr ys := by
  cases c with
  | cnull => simp [collectChildren]
  | cundef => simp [collectChildren]
  | cbool b =>
      cases b <;> simp [collectChildren]
  | cstr s => simp [collectChildren]
  | cnum n => simp [collectChildren]
  | carr xs =>
      simpa [collectChildren] using collectChildrenList_flat xs
  | cvel tag props children => simp [collectChildren]
  | cvcomp spec => simp [collectChildren]

/-- List form of the deep-flattening property. -/
theorem collectChildrenList_flat (cs : List Child) :
    ∀ x ∈ collectChildrenList cs, x ≠ Child.cnull ∧ x ≠ Child.cundef ∧
      x ≠ Child.cbool false ∧ ∀ ys, x ≠ Child.carr ys := by
  cases cs with
  | nil => simp [collectChildrenList]
  | cons y ys =>
      intro x hx
      simp only [collectChildrenList, List.mem_append] at hx
      rcases hx with h | h
      · exact collectChildren_flat y x h
      · exact collectChildrenList_flat ys x h
end

/-- C8 amended.  jsx performs exactly the same deep recursive
flattening as jsxs — the two are extensionally equal, so no children
value distinguishes them — and the shared collectChildren flattening
removes null, undefined and false and leaves no nested array. -/
theorem jsx_eq_jsxs_deep_flattening :
    (∀ (τ : Type) (t : τ) (p : Option JProps) (k : Option String),
      jsx t p k = jsxs t p k) ∧
    (∀ c, ∀ x ∈ collectChildren c, x ≠ Child.cnull ∧ x ≠ Child.cundef ∧
      x ≠ Child.cbool false ∧ ∀ ys, x ≠ Child.carr ys) :=
  ⟨fun _ _ _ _ => rfl, collectChildren_flat⟩

/-- Witness for the amended C8 claim at concrete inputs. -/
theorem jsx_eq_jsxs_deep_flattening_witness :
    jsx (τ := String) "span" (some ⟨some (.cstr "Hello"), none, []⟩) none =
      jsxs "span" (some ⟨some (.cstr "Hello"), none, []⟩) none ∧
    (Child.cstr "Hello" ≠ Child.cnull ∧ Child.cstr "Hello" ≠ Child.cundef ∧
      Child.cstr "Hello" ≠ Child.cbool false ∧
      ∀ ys, Child.cstr "Hello" ≠ Child.carr ys) :=
  ⟨jsx_eq_jsxs_deep_flattening.1 String "span"
      (some ⟨some (.cstr "Hello"), none, []⟩) none,
   jsx_eq_jsxs_deep_flattening.2 (.cstr "Hello") (.cstr "Hello")
      (by simp [collectChildren])⟩

/-- Result of a user-supplied propTypes validator called with
(value, propName, componentName): null (ok), a non-null Error with its
message, or a synchronous throw from the validator body itself. -/
inductive VRes where
  | ok
  | err (msg : String)
  | vthrow (msg : String)

/-- Shape of a propTypes validator. -/
def Validator := Option JsVal → String → String → VRes

/-- Per-prop body of AtomComponent._validateProps: run the validator;
a non-null Error is escalated to a thrown construction error naming the
prop and the component; that inner throw is itself caught by the
surrounding catch, which wraps any validation-time throw in the
"Prop validation failed" message. -/
def validateProp (validator : Validator) (value : Option JsVal)
    (propName componentName : String) : Except String Unit :=
  match validator value propName componentName with
  | .ok => .ok ()
  | .err m =>
      .error ("Prop validation failed for `" ++ propName ++ "` in `" ++
        componentName ++ "`: " ++
        ("Invalid prop `" ++ propName ++ "` supplied to `" ++
          componentName ++ "`: " ++ m))
  | .vthrow m =>
      .error ("Prop validation failed for `" ++ propName ++ "` in `" ++
        componentName ++ "`: " ++ m)

/-- Loop of AtomComponent._validateProps over the declared propTypes:
each validator is invoked with the merged prop value, the prop name and
the component name; the first failure throws and aborts the loop. -/
def validateProps (props : List (String × JsVal))
    (propTypes : List (String × Validator)) (componentName : String) :
    Except String Unit :=
  match propTypes with
  | [] => .ok ()
  | (pn, v) :: rest =>
      match validateProp v (lookupProp props pn) pn componentName with
      | .error e => .error e
      | .ok _ => validateProps props rest componentName

/-- Component instance produced by a successful AtomComponent
constructor: merged props, state initialized to an empty object, and the
post-constructor phase flags. -/
structure ConstructedInstance where
  props : List (String × JsVal)
  state : List (String × JsVal)
  flags : Flags
deriving Repr, DecidableEq

/-- AtomComponent constructor (Component.ts): merge class-level
defaultProps under the explicit props (spread `{...defaultProps,
...props}`, explicit wins), validate against propTypes when declared
(a failure propagates out and no instance is produced), then store the
merged props, initialize the state empty and mark the constructor
called. -/
def constructComp (props : List (String × JsVal))
    (defaultProps : Option (List (String × JsVal)))
    (propTypes : Option (List (String × Validator)))
    (componentName : String) : Except String ConstructedInstance :=
  let merged :=
    match defaultProps with
    | none => props
    | some d => spreadMerge d props
  let check : Except String Unit :=
    match propTypes with
    | some pt => validateProps merged pt componentName
    | none => .ok ()
  match check with
  | .error e => .error e
  | .ok _ => .ok ⟨merged, [], freshFlags⟩

/-- Validator used by the concrete C7 example: the prop must be a
string. -/
def requireString : Validator := fun v _ _ =>
  match v with
  | some (.str _) => .ok
  | _ => .err "expected a string"

/-- C7.  Construction merges defaultProps under the explicit props with
the explicit props winning; each declared validator runs on the merged
value with (value, propName, componentName) and a non-null Error aborts
construction with a thrown message embedding both the prop name and the
component name; and with defaultProps label="default", constructing with
empty props yields props.label = "default" while constructing with a
numeric label throws a message naming both the prop and the component. -/
theorem constructComp_contract :
    (∀ (d p : List (String × JsVal)) (k : String),
      lookupProp (spreadMerge d p) k =
        (match lookupProp p k with
         | some v => some v
         | none => lookupProp d k)) ∧
    (∀ (props : List (String × JsVal)) (pn cname : String) (f : Validator)
        (rest : List (String × Validator)),
      validateProps props ((pn, f) :: rest) cname =
        match validateProp f (lookupProp props pn) pn cname with
        | .error e => .error e
        | .ok _ => validateProps props rest cname) ∧
    (∀ (f : Validator) (value : Option JsVal) (pn cname m : String),
      f value pn cname = .err m →
      validateProp f value pn cname =
        .error ("Prop validation failed for `" ++ pn ++ "` in `" ++
          cname ++ "`: " ++
          ("Invalid prop `" ++ pn ++ "` supplied to `" ++
            cname ++ "`: " ++ m))) ∧
    (∀ (props : List (String × JsVal))
        (d : Option (List (String × JsVal)))
        (pt : List (String × Validator)) (cname e : String),
      validateProps
          (match d with | none => props | some dd => spreadMerge dd props)
          pt cname = .error e →
      constructComp props d (some pt) cname = .error e) ∧
    (constructComp [] (some [("label", .str "default")])
        (some [("label", requireString)]) "TestComponent" =
      .ok ⟨[("label", .str "default")], [], freshFlags⟩) ∧
    (constructComp [("label", .num 42)] (some [("label", .str "default")])
        (some [("label", requireString)]) "TestComponent" =
      .error ("Prop validation failed for `label` in `TestComponent`: " ++
        "Invalid prop `label` supplied to `TestComponent`: expected a string")) := by
  refine ⟨?_, ?_, ?_, ?_, ?_, ?_⟩
  · intro d p k
    cases h : lookupProp p k <;> simp [lookupProp_spreadMerge, h]
  · intro props pn cname f rest
    rfl
  · intro f value pn cname m h
    simp [validateProp, h]
  · intro props d pt cname e h
    cases d <;> simp_all [constructComp]
  · rfl
  · rfl

/-- Witness for C7: a failing validator on the merged props aborts
construction with the wrapped message. -/
theorem constructComp_contract_witness :
    (requireString (lookupProp [("label", JsVal.num 7)] "label")
        "label" "Card" = .err "expected a string") ∧
    validateProp requireString (lookupProp [("label", JsVal.num 7)] "label")
        "label" "Card" =
      .error ("Prop validation failed for `label` in `Card`: " ++
        ("Invalid prop `label` supplied to `Card`: " ++ "expected a string")) ∧
    constructComp [("label", .num 7)] none
        (some [("label", requireString)]) "Card" =
      .error ("Prop validation failed for `label` in `Card`: " ++
        "Invalid prop `label` supplied to `Card`: expected a string") :=
  ⟨rfl,
   constructComp_contract.2.2.1 requireString
      (lookupProp [("label", JsVal.num 7)] "label") "label" "Card"
      "expected a string" rfl,
   constructComp_contract.2.2.2.1 [("label", .num 7)] none
      [("label", requireString)] "Card"
      ("Prop validation failed for `label` in `Card`: " ++
        "Invalid prop `label` supplied to `Card`: expected a string") rfl⟩

/-- Component attachment stored on a DOM node by attachComponentToNode:
the instance (identified by its creation index) together with the guard
data the afterMount executor reads off it. -/
structure Attach where
  id : Nat
  afterMountCalled : Bool
  hasAfterMount : Bool
  aftOut : AfterOutcome
deriving Repr, DecidableEq

/-- Real DOM nodes produced by materialization: text nodes, elements
(tag, attributes, event listeners, children) and document fragments,
each optionally carrying a component attachment (__atomComponent). -/
inductive DNode where
  | text (s : String) (attach : Option Attach)
  | elem (tag : String) (attrs : List (String × String))
      (listeners : List String) (children : List DNode)
      (attach : Option Attach)
  | frag (children : List DNode) (attach : Option Attach)

/-- Reads the __atomComponent expando of a node. -/
def getAttach : DNode → Option Attach
  | .text _ a => a
  | .elem _ _ _ _ a => a
  | .frag _ a => a

/-- Child list of a node (childNodes). -/
def nodeChildren : DNode → List DNode
  | .text _ _ => []
  | .elem _ _ _ cs _ => cs
  | .frag cs _ => cs

/-- attachComponentToNode (DOMUtils.ts): assigns the __atomComponent
expando on the node, overwriting any attachment already present. -/
def attachComponentToNode : DNode → Attach → DNode
  | .text s _, a => .text s (some a)
  | .elem t ats ls cs _, a => .elem t ats ls cs (some a)
  | .frag cs _, a => .frag cs (some a)

/-- DOM appendChild semantics for the appended argument: appending a
DocumentFragment moves the children of the fragment into the parent (the
fragment itself, and any attachment on it, never enters the tree); any
other node is inserted itself. -/
def appendChildNodes : DNode → List DNode
  | .frag kids _ => kids
  | n => [n]

/-- applyPropsToElement (DOMUtils.ts): skip children; a function-valued
ref prop is invoked with the element, its errors caught and logged; a
function-valued on* prop becomes an event listener for the lowercased
remainder of the name; everything else is set as a stringified
attribute.  Returns the attributes, the listeners and the log events. -/
def applyPropsToElement : List (String × PropVal) →
    List (String × String) × List String × List Ev
  | [] => ([], [], [])
  | kv :: rest =>
      let r := applyPropsToElement rest
      if kv.1 = "children" then r
      else
        match kv.2 with
        | .func refThrows =>
            if kv.1 = "ref" then
              (r.1, r.2.1,
                (if refThrows then [Ev.log "Ref callback error:"] else [])
                  ++ r.2.2)
            else if kv.1.startsWith "on" then
              (r.1, (kv.1.drop 2).toLower :: r.2.1, r.2.2)
            else ((kv.1, "function") :: r.1, r.2.1, r.2.2)
        | .prim s => ((kv.1, s) :: r.1, r.2.1, r.2.2)

mutual
/-- createDOMNode (core/createDOMNode.ts, lifecycle-wired version):
null/undefined/booleans give an empty text node; primitives a text node;
an array a fragment filled by appendChild (which flattens fragments);
an intrinsic VNode an element with its props applied and its children
appended; a component VNode instantiates the class, runs beforeMount,
calls render, materializes the result, runs didMount, attaches the
instance to the produced node and returns it.  The Nat argument is the
next fresh instance id; the result carries the produced node, the next
id and the emitted event trace. -/
def createDOMNode : Child → Nat → DNode × Nat × List Ev
  | .cnull, k => (.text "" none, k, [])
  | .cundef, k => (.text "" none, k, [])
  | .cbool _, k => (.text "" none, k, [])
  | .cstr s, k => (.text s none, k, [])
  | .cnum n, k => (.text (toString n) none, k, [])
  | .carr xs, k =>
      let r := createDOMNodeChildren xs k
      (.frag r.1 none, r.2.1, r.2.2)
  | .cvel tag props children, k =>
      let pr := applyPropsToElement props
      match children with
      | .cundef => (.elem tag pr.1 pr.2.1 [] none, k, pr.2.2)
      | .carr xs =>
          let r := createDOMNodeChildren xs k
          (.elem tag pr.1 pr.2.1 r.1 none, r.2.1, pr.2.2 ++ r.2.2)
      | .cnull =>
          let r := createDOMNode Child.cnull k
          (.elem tag pr.1 pr.2.1 (appendChildNodes r.1) none, r.2.1,
            pr.2.2 ++ r.2.2)
      | .cbool b =>
          let r := createDOMNode (Child.cbool b) k
          (.elem tag pr.1 pr.2.1 (appendChildNodes r.1) none, r.2.1,
            pr.2.2 ++ r.2.2)
      | .cstr s =>
          let r := createDOMNode (Child.cstr s) k
          (.elem tag pr.1 pr.2.1 (appendChildNodes r.1) none, r.2.1,
            pr.2.2 ++ r.2.2)
      | .cnum n =>
          let r := createDOMNode (Child.cnum n) k
          (.elem tag pr.1 pr.2.1 (appendChildNodes r.1) none, r.2.1,
            pr.2.2 ++ r.2.2)
      | .cvel t2 p2 c2 =>
          let r := createDOMNode (Child.cvel t2 p2 c2) k
          (.elem tag pr.1 pr.2.1 (appendChildNodes r.1) none, r.2.1,
            pr.2.2 ++ r.2.2)
      | .cvcomp spec =>
          let r := createDOMNode (Child.cvcomp spec) k
          (.elem tag pr.1 pr.2.1 (appendChildNodes r.1) none, r.2.1,
            pr.2.2 ++ r.2.2)
  | .cvcomp (.mk hasBM bmT hasDM dOut hasAM aOut body), k =>
      let bm := executeBeforeMount hasBM bmT k freshFlags
      let r := createDOMNode body (k + 1)
      let dm := executeDidMount hasDM dOut k bm.1
      let node := attachComponentToNode r.1
        ⟨k, dm.1.afterMountCalled, hasAM, aOut⟩
      (node, r.2.1,
        [Ev.ctor k] ++ bm.2 ++ [Ev.renderCall k] ++ r.2.2 ++ dm.2)

/-- Materialization loop appending each array element to its parent via
appendChild (fragments contribute their children and are discarded). -/
def createDOMNodeChildren : List Child → Nat → List DNode × Nat × List Ev
  | [], k => ([], k, [])
  | x :: xs, k =>
      let r1 := createDOMNode x k
      let r2 := createDOMNodeChildren xs r1.2.1
      (appendChildNodes r1.1 ++ r2.1, r2.2.1, r1.2.2 ++ r2.2.2)
end

/-- Body of the afterMount branch of processAfterMountRecursively for a
node carrying an attachment: consult the guard, invoke the hook when
allowed (awaiting a thenable; a throw or rejection is caught and logged
under the fixed tag), and in the finally block always delete the
attachment before moving on. -/
def processNodeAttach (a : Attach) : List Ev :=
  let canInvoke := !a.afterMountCalled && a.hasAfterMount
  let callEvs :=
    if canInvoke then
      [Ev.afterMountCall a.id] ++
        (match a.aftOut with
         | .ok => []
         | .throws => [Ev.log "afterMount() error:"]
         | .rejects => [Ev.log "afterMount() error:"])
    else []
  callEvs ++ [Ev.attachCleared a.id]

/-- Attachment step on an optional attachment: nodes without an
attachment are skipped silently. -/
def processAttachOpt : Option Attach → List Ev
  | some a => processNodeAttach a
  | none => []

mutual
/-- processAfterMountRecursively (render.ts / DOMUtils.ts): handle the
attachment of the current node first (invoking afterMount under its guard,
logging failures, always deleting the attachment), then recurse over the
childNodes in document order.  Returns the node with attachments cleared
and the emitted trace. -/
def processAfterMountRecursively : DNode → DNode × List Ev
  | .text s a => (.text s none, processAttachOpt a)
  | .elem t ats ls cs a =>
      let r := processChildNodes cs
      (.elem t ats ls r.1 none, processAttachOpt a ++ r.2)
  | .frag cs a =>
      let r := processChildNodes cs
      (.frag r.1 none, processAttachOpt a ++ r.2)

/-- Sequential traversal of a child list: each child is fully processed
before the next (the real code awaits each child in turn). -/
def processChildNodes : List DNode → List DNode × List Ev
  | [] => ([], [])
  | x :: xs =>
      let r1 := processAfterMountRecursively x
      let r2 := processChildNodes xs
      (r1.1 :: r2.1, r1.2 ++ r2.2)
end

/-- DOM appendChild effect on the appended node object itself: appending
a fragment drains its childNodes (they move to the parent); other nodes
are unchanged. -/
def afterAppendNode : DNode → DNode
  | .frag _ a => .frag [] a
  | n => n

/-- render (core/render.ts): clear the container, materialize the
element, append the produced node to the container (fragment children
move), then after the synchronous part schedule
processAfterMountRecursively on the produced node (which, for a
fragment, has just been drained by the append).  Returns the child list of
the container and the full event trace with the insertion marker between
the synchronous mount and the deferred traversal. -/
def render (element : Child) : List DNode × List Ev :=
  let r := createDOMNode element 0
  let container := appendChildNodes r.1
  let p := processAfterMountRecursively (afterAppendNode r.1)
  (container, r.2.2 ++ [Ev.domInsert] ++ p.2)

/-- Full observable event trace of one render call. -/
def renderTrace (element : Child) : List Ev := (render element).2

mutual
/-- Attachment ids present in a DOM tree, in traversal order. -/
def attachIds : DNode → List Nat
  | .text _ a => (a.map (·.id)).toList
  | .elem _ _ _ cs a => (a.map (·.id)).toList ++ attachIdsList cs
  | .frag cs a => (a.map (·.id)).toList ++ attachIdsList cs

/-- Attachment ids of a list of DOM trees. -/
def attachIdsList : List DNode → List Nat
  | [] => []
  | x :: xs => attachIds x ++ attachIdsList xs
end

mutual
/-- Holds when no node of the tree carries an attachment. -/
def noAttachments : DNode → Bool
  | .text _ a => a.isNone
  | .elem _ _ _ cs a => a.isNone && noAttachmentsList cs
  | .frag cs a => a.isNone && noAttachmentsList cs

/-- List form of noAttachments. -/
def noAttachmentsList : List DNode → Bool
  | [] => true
  | x :: xs => noAttachments x && noAttachmentsList xs
end

/-- Instance id carried by an event, when any. -/
def evInstId : Ev → Option Nat
  | .ctor i => some i
  | .beforeMountCall i => some i
  | .renderCall i => some i
  | .didMountCall i => some i
  | .afterMountCall i => some i
  | .attachCleared i => some i
  | .domInsert => none
  | .log _ => none

/-- Recognizes a lifecycle-call event of instance i (constructor,
beforeMount, render, didMount, afterMount). -/
def isCallEvOf (i : Nat) : Ev → Bool
  | .ctor j => j == i
  | .beforeMountCall j => j == i
  | .renderCall j => j == i
  | .didMountCall j => j == i
  | .afterMountCall j => j == i
  | _ => false

/-- Event kinds that can occur during synchronous materialization
(before DOM insertion): constructor/beforeMount/render/didMount calls
and log output. -/
def isMatEv : Ev → Bool
  | .ctor _ => true
  | .beforeMountCall _ => true
  | .renderCall _ => true
  | .didMountCall _ => true
  | .log _ => true
  | _ => false

/-- Event kinds that can occur during the post-insertion traversal:
afterMount calls, attachment cleanup and log output. -/
def isPostEv : Ev → Bool
  | .afterMountCall _ => true
  | .attachCleared _ => true
  | .log _ => true
  | _ => false

/-- e1 strictly precedes every occurrence of e2 in the trace. -/
def precedes (e1 e2 : Ev) (tr : List Ev) : Prop :=
  ∀ l1 l2, tr = l1 ++ e2 :: l2 → e1 ∈ l1

theorem precedes_of_append {A B : List Ev} {e1 e2 : Ev}
    (h1 : e1 ∈ A) (h2 : e2 ∉ A) : precedes e1 e2 (A ++ B) := by
  intro l1 l2 heq
  rcases List.append_eq_append_iff.1 heq.symm with ⟨a2, ha1, ha2⟩ | ⟨c2, hc1, hc2⟩
  · -- A = l1 ++ a2 and e2 :: l2 = a2 ++ B : a2 cannot start with e2
    cases a2 with
    | nil =>
        rw [List.append_nil] at ha1
        rw [← ha1]
        exact h1
    | cons y ys =>
        exfalso
        apply h2
        rw [ha1]
        have : y = e2 := by
          have := ha2
          simp only [List.cons_append] at this
          exact (List.cons.injEq _ _ _ _ ▸ this).1.symm
        rw [this]
        exact List.mem_append_right _ (List.mem_cons_self _ _)
  · -- l1 = A ++ c2
    rw [hc1]
    exact List.mem_append_left _ h1

/-- Trace of the beforeMount executor: the hook call for this instance
followed possibly by the logged error, or nothing. -/
theorem executeBeforeMount_trace (b1 b2 : Bool) (id : Nat) (f : Flags) :
    (executeBeforeMount b1 b2 id f).2 = [] ∨
    (executeBeforeMount b1 b2 id f).2 = [Ev.beforeMountCall id] ∨
    (executeBeforeMount b1 b2 id f).2 =
      [Ev.beforeMountCall id, Ev.log "beforeMount() error:"] := by
  cases b1 <;> cases b2 <;> cases hbm : f.beforeMountCalled <;>
    simp [executeBeforeMount, hbm]

/-- Trace of the didMount executor: the hook call for this instance
followed possibly by a logged error, or nothing. -/
theorem executeDidMount_trace (b1 : Bool) (dOut : DidOutcome) (id : Nat)
    (f : Flags) :
    (executeDidMount b1 dOut id f).2 = [] ∨
    (executeDidMount b1 dOut id f).2 = [Ev.didMountCall id] ∨
    (executeDidMount b1 dOut id f).2 =
      [Ev.didMountCall id, Ev.log "didMount() error:"] ∨
    (executeDidMount b1 dOut id f).2 =
      [Ev.didMountCall id, Ev.log "Async didMount() error:"] := by
  cases b1 <;> cases dOut <;> cases hdm : f.didMountCalled <;>
    simp [executeDidMount, hdm]

/-- The beforeMount executor does not touch the didMount or afterMount
consumption flags. -/
theorem executeBeforeMount_preserves (b1 b2 : Bool) (id : Nat) (f : Flags) :
    (executeBeforeMount b1 b2 id f).1.didMountCalled = f.didMountCalled ∧
    (executeBeforeMount b1 b2 id f).1.afterMountCalled = f.afterMountCalled := by
  cases b1 <;> cases b2 <;> cases hbm : f.beforeMountCalled <;>
    simp [executeBeforeMount, hbm]

/-- The didMount executor does not touch the afterMount consumption
flag. -/
theorem executeDidMount_preserves (b1 : Bool) (dOut : DidOutcome) (id : Nat)
    (f : Flags) :
    (executeDidMount b1 dOut id f).1.afterMountCalled = f.afterMountCalled := by
  cases b1 <;> cases dOut <;> cases hdm : f.didMountCalled <;>
    simp [executeDidMount, hdm]

/-- Every event of applyPropsToElement is console output (ref-callback
error logging). -/
theorem applyPropsToElement_events (props : List (String × PropVal)) :
    ∀ ev ∈ (applyPropsToElement props).2.2, ∃ t, ev = Ev.log t := by
  induction props with
  | nil => simp [applyPropsToElement]
  | cons kv rest ih =>
      intro ev hev
      by_cases hch : kv.1 = "children"
      · rw [applyPropsToElement] at hev
        simp only [hch, if_pos rfl] at hev
        exact ih ev hev
      · rcases hval : kv.2 with s | rt
        · rw [applyPropsToElement] at hev
          simp only [hch, if_neg hch, hval] at hev
          exact ih ev hev
        · by_cases href : kv.1 = "ref"
          · rw [applyPropsToElement] at hev
            simp only [hch, if_neg hch, hval, href, if_pos rfl] at hev
            rcases List.mem_append.1 hev with h | h
            · cases rt
              · simp at h
              · simp at h
                exact ⟨_, h⟩
            · exact ih ev h
          · rw [applyPropsToElement] at hev
            by_cases hon : kv.1.startsWith "on"
            · simp only [hch, if_neg hch, hval, href, if_neg href, hon,
                if_pos rfl] at hev
              exact ih ev hev
            · simp only [hch, if_neg hch, hval, href, if_neg href, hon,
                if_neg hon] at hev
              exact ih ev hev

theorem attachIdsList_nil : attachIdsList [] = [] := rfl

theorem attachIdsList_cons (x : DNode) (xs : List DNode) :
    attachIdsList (x :: xs) = attachIds x ++ attachIdsList xs := rfl

theorem attachIdsList_append (l1 l2 : List DNode) :
    attachIdsList (l1 ++ l2) = attachIdsList l1 ++ attachIdsList l2 := by
  induction l1 with
  | nil => simp [attachIdsList_nil]
  | cons x xs ih => simp [attachIdsList_cons, ih]

theorem attachIds_attachComponentToNode (n : DNode) (a : Attach) :
    attachIds (attachComponentToNode n a) =
      a.id :: attachIdsList (nodeChildren n) := by
  cases n <;> rfl

theorem attachIds_decomp (n : DNode) :
    attachIds n =
      ((getAttach n).map (·.id)).toList ++ attachIdsList (nodeChildren n) := by
  cases n with
  | text s a => cases a <;> rfl
  | elem t ats ls cs a => rfl
  | frag cs a => rfl

theorem attachIdsList_appendChildNodes (n : DNode) :
    List.Sublist (attachIdsList (appendChildNodes n)) (attachIds n) := by
  cases n with
  | frag cs a =>
      show List.Sublist (attachIdsList cs) (attachIds (DNode.frag cs a))
      rw [attachIds_decomp]
      exact List.sublist_append_right _ _
  | text s a =>
      show List.Sublist (attachIds (DNode.text s a) ++ attachIdsList [])
        (attachIds (DNode.text s a))
      simp [attachIdsList_nil]
  | elem t ats ls cs a =>
      show List.Sublist (attachIds (DNode.elem t ats ls cs a) ++ attachIdsList [])
        (attachIds (DNode.elem t ats ls cs a))
      simp [attachIdsList_nil]

theorem attachChildIds_sublist (n : DNode) :
    List.Sublist (attachIdsList (nodeChildren n)) (attachIds n) := by
  rw [attachIds_decomp n]
  exact List.sublist_append_right _ _

/-- Shape of the component branch of createDOMNode: instantiate (ctor
event), run beforeMount, call render, materialize the body at the next
fresh id, run didMount, and attach the instance to the produced node. -/
theorem createDOMNode_cvcomp_trace (b1 b2 b3 : Bool) (dOut : DidOutcome)
    (b4 : Bool) (aOut : AfterOutcome) (body : Child) (k : Nat) :
    (createDOMNode (.cvcomp (.mk b1 b2 b3 dOut b4 aOut body)) k).2.2 =
      ((((Ev.ctor k :: (executeBeforeMount b1 b2 k freshFlags).2) ++
        [Ev.renderCall k]) ++ (createDOMNode body (k + 1)).2.2) ++
          (executeDidMount b3 dOut k
            (executeBeforeMount b1 b2 k freshFlags).1).2) := rfl

/-- Node produced by the component branch of createDOMNode. -/
theorem createDOMNode_cvcomp_node (b1 b2 b3 : Bool) (dOut : DidOutcome)
    (b4 : Bool) (aOut : AfterOutcome) (body : Child) (k : Nat) :
    (createDOMNode (.cvcomp (.mk b1 b2 b3 dOut b4 aOut body)) k).1 =
      attachComponentToNode (createDOMNode body (k + 1)).1
        ⟨k, (executeDidMount b3 dOut k
          (executeBeforeMount b1 b2 k freshFlags).1).1.afterMountCalled,
          b4, aOut⟩ := rfl

/-- Fresh-id counter after the component branch of createDOMNode. -/
theorem createDOMNode_cvcomp_next (b1 b2 b3 : Bool) (dOut : DidOutcome)
    (b4 : Bool) (aOut : AfterOutcome) (body : Child) (k : Nat) :
    (createDOMNode (.cvcomp (.mk b1 b2 b3 dOut b4 aOut body)) k).2.1 =
      (createDOMNode body (k + 1)).2.1 := rfl

theorem createDOMNodeChildren_nil (k : Nat) :
    createDOMNodeChildren [] k = ([], k, []) := rfl

theorem createDOMNodeChildren_cons (x : Child) (xs : List Child) (k : Nat) :
    createDOMNodeChildren (x :: xs) k =
      (appendChildNodes (createDOMNode x k).1 ++
        (createDOMNodeChildren xs (createDOMNode x k).2.1).1,
       (createDOMNodeChildren xs (createDOMNode x k).2.1).2.1,
       (createDOMNode x k).2.2 ++
        (createDOMNodeChildren xs (createDOMNode x k).2.1).2.2) := rfl

/-- Materialization invariant at fresh-id counter k: the counter only
grows, every emitted event is a synchronous-mount event, every event id
and every attachment id lies in the consumed id range, and the
attachment ids are pairwise distinct. -/
def MatOK (k : Nat) (res : DNode × Nat × List Ev) : Prop :=
  k ≤ res.2.1 ∧
  (∀ ev ∈ res.2.2, isMatEv ev = true) ∧
  (∀ ev ∈ res.2.2, ∀ i, evInstId ev = some i → k ≤ i ∧ i < res.2.1) ∧
  (∀ i ∈ attachIds res.1, k ≤ i ∧ i < res.2.1) ∧
  (attachIds res.1).Nodup

/-- List form of the materialization invariant. -/
def MatOKList (k : Nat) (res : List DNode × Nat × List Ev) : Prop :=
  k ≤ res.2.1 ∧
  (∀ ev ∈ res.2.2, isMatEv ev = true) ∧
  (∀ ev ∈ res.2.2, ∀ i, evInstId ev = some i → k ≤ i ∧ i < res.2.1) ∧
  (∀ i ∈ attachIdsList res.1, k ≤ i ∧ i < res.2.1) ∧
  (attachIdsList res.1).Nodup

theorem matOK_leaf (k : Nat) (s : String) :
    MatOK k (DNode.text s none, k, ([] : List Ev)) := by
  refine ⟨Nat.le_refl k, ?_, ?_, ?_, ?_⟩
  · intro ev hev
    exact absurd hev (List.not_mem_nil ev)
  · intro ev hev
    exact absurd hev (List.not_mem_nil ev)
  · intro i hi
    exact absurd hi (List.not_mem_nil i)
  · exact List.nodup_nil

/-- The intrinsic-element assembly step preserves the invariant: props
application only logs, and appending the materialized children (with
fragment flattening) keeps attachment ids within range and distinct. -/
theorem matOK_elem (k : Nat) (tag : String) (props : List (String × PropVal))
    (r : DNode × Nat × List Ev) (h : MatOK k r) :
    MatOK k (DNode.elem tag (applyPropsToElement props).1
      (applyPropsToElement props).2.1 (appendChildNodes r.1) none, r.2.1,
      (applyPropsToElement props).2.2 ++ r.2.2) := by
  obtain ⟨h1, h2, h3, h4, h5⟩ := h
  have hsub := attachIdsList_appendChildNodes r.1
  refine ⟨h1, ?_, ?_, ?_, ?_⟩
  · intro ev hev
    rcases List.mem_append.1 hev with hp | hm
    · obtain ⟨t, rfl⟩ := applyPropsToElement_events props ev hp
      rfl
    · exact h2 ev hm
  · intro ev hev i hid
    rcases List.mem_append.1 hev with hp | hm
    · obtain ⟨t, rfl⟩ := applyPropsToElement_events props ev hp
      simp [evInstId] at hid
    · exact h3 ev hm i hid
  · intro i hi
    have hi2 : i ∈ attachIdsList (appendChildNodes r.1) := hi
    exact h4 i (hsub.subset hi2)
  · show (attachIdsList (appendChildNodes r.1)).Nodup
    exact h5.sublist hsub

mutual
/-- Materialization establishes the id-range invariant. -/
theorem createDOMNode_ok (e : Child) (k : Nat) :
    MatOK k (createDOMNode e k) := by
  cases e with
  | cnull => exact matOK_leaf k ""
  | cundef => exact matOK_leaf k ""
  | cbool b => exact matOK_leaf k ""
  | cstr s => exact matOK_leaf k s
  | cnum n => exact matOK_leaf k (toString n)
  | carr xs =>
      obtain ⟨h1, h2, h3, h4, h5⟩ := createDOMNodeChildren_ok xs k
      exact ⟨h1, h2, h3, h4, h5⟩
  | cvel tag props children =>
      cases children with
      | cundef =>
          refine ⟨Nat.le_refl k, ?_, ?_, ?_, ?_⟩
          · intro ev hev
            obtain ⟨t, rfl⟩ := applyPropsToElement_events props ev hev
            rfl
          · intro ev hev i hid
            obtain ⟨t, rfl⟩ := applyPropsToElement_events props ev hev
            simp [evInstId] at hid
          · intro i hi
            exact absurd hi (List.not_mem_nil i)
          · exact List.nodup_nil
      | carr xs =>
          obtain ⟨h1, h2, h3, h4, h5⟩ := createDOMNodeChildren_ok xs k
          refine ⟨h1, ?_, ?_, ?_, ?_⟩
          · intro ev hev
            rcases List.mem_append.1 hev with hp | hm
            · obtain ⟨t, rfl⟩ := applyPropsToElement_events props ev hp
              rfl
            · exact h2 ev hm
          · intro ev hev i hid
            rcases List.mem_append.1 hev with hp | hm
            · obtain ⟨t, rfl⟩ := applyPropsToElement_events props ev hp
              simp [evInstId] at hid
            · exact h3 ev hm i hid
          · exact h4
          · exact h5
      | cnull =>
          exact matOK_elem k tag props _ (createDOMNode_ok Child.cnull k)
      | cbool b =>
          exact matOK_elem k tag props _ (createDOMNode_ok (Child.cbool b) k)
      | cstr s =>
          exact matOK_elem k tag props _ (createDOMNode_ok (Child.cstr s) k)
      | cnum n =>
          exact matOK_elem k tag props _ (createDOMNode_ok (Child.cnum n) k)
      | cvel t2 p2 c2 =>
          exact matOK_elem k tag props _
            (createDOMNode_ok (Child.cvel t2 p2 c2) k)
      | cvcomp spec =>
          exact matOK_elem k tag props _
            (createDOMNode_ok (Child.cvcomp spec) k)
  | cvcomp spec =>
      cases spec with
      | mk b1 b2 b3 dOut b4 aOut body =>
          obtain ⟨ih1, ih2, ih3, ih4, ih5⟩ := createDOMNode_ok body (k + 1)
          have hk : k ≤ (createDOMNode body (k + 1)).2.1 :=
            Nat.le_trans (Nat.le_succ k) ih1
          have hklt : k < (createDOMNode body (k + 1)).2.1 :=
            Nat.lt_of_lt_of_le (Nat.lt_succ_self k) ih1
          have hchild : ∀ i ∈ attachIdsList
              (nodeChildren (createDOMNode body (k + 1)).1),
              k + 1 ≤ i ∧ i < (createDOMNode body (k + 1)).2.1 := by
            intro i hi
            exact ih4 i ((attachChildIds_sublist _).subset hi)
          refine ⟨?_, ?_, ?_, ?_, ?_⟩
          · rw [createDOMNode_cvcomp_next]
            exact hk
          · rw [createDOMNode_cvcomp_trace]
            intro ev hev
            rcases List.mem_append.1 hev with h | hdm
            · rcases List.mem_append.1 h with h2 | hbody
              · rcases List.mem_append.1 h2 with h3 | hrender
                · rcases List.mem_cons.1 h3 with rfl | hbm
                  · rfl
                  · rcases executeBeforeMount_trace b1 b2 k freshFlags with
                      h4 | h4 | h4 <;> rw [h4] at hbm <;> simp at hbm
                    · rw [hbm]; rfl
                    · rcases hbm with rfl | rfl <;> rfl
                · rw [List.mem_singleton.1 hrender]; rfl
              · exact ih2 ev hbody
            · rcases executeDidMount_trace b3 dOut k
                  (executeBeforeMount b1 b2 k freshFlags).1 with
                h4 | h4 | h4 | h4 <;> rw [h4] at hdm <;> simp at hdm
              · rw [hdm]; rfl
              · rcases hdm with rfl | rfl <;> rfl
              · rcases hdm with rfl | rfl <;> rfl
          · rw [createDOMNode_cvcomp_trace, createDOMNode_cvcomp_next]
            intro ev hev i hid
            rcases List.mem_append.1 hev with h | hdm
            · rcases List.mem_append.1 h with h2 | hbody
              · rcases List.mem_append.1 h2 with h3 | hrender
                · rcases List.mem_cons.1 h3 with rfl | hbm
                  · simp only [evInstId, Option.some.injEq] at hid
                    omega
                  · rcases executeBeforeMount_trace b1 b2 k freshFlags with
                      h4 | h4 | h4 <;> rw [h4] at hbm <;> simp at hbm
                    · rw [hbm] at hid
                      simp only [evInstId, Option.some.injEq] at hid
                      omega
                    · rcases hbm with rfl | rfl
                      · simp only [evInstId, Option.some.injEq] at hid
                        omega
                      · simp [evInstId] at hid
                · rw [List.mem_singleton.1 hrender] at hid
                  simp only [evInstId, Option.some.injEq] at hid
                  omega
              · have := ih3 ev hbody i hid
                omega
            · rcases executeDidMount_trace b3 dOut k
                  (executeBeforeMount b1 b2 k freshFlags).1 with
                h4 | h4 | h4 | h4 <;> rw [h4] at hdm <;> simp at hdm
              · rw [hdm] at hid
                simp only [evInstId, Option.some.injEq] at hid
                omega
              · rcases hdm with rfl | rfl
                · simp only [evInstId, Option.some.injEq] at hid
                  omega
                · simp [evInstId] at hid
              · rcases hdm with rfl | rfl
                · simp only [evInstId, Option.some.injEq] at hid
                  omega
                · simp [evInstId] at hid
          · rw [createDOMNode_cvcomp_node, createDOMNode_cvcomp_next,
              attachIds_attachComponentToNode]
            intro i hi
            rcases List.mem_cons.1 hi with rfl | hi2
            · exact ⟨Nat.le_refl i, hklt⟩
            · have := hchild i hi2
              omega
          · rw [createDOMNode_cvcomp_node, attachIds_attachComponentToNode]
            refine List.Nodup.cons ?_ (ih5.sublist (attachChildIds_sublist _))
            intro hmem
            have := hchild k hmem
            omega

/-- Materialization of a child list establishes the id-range
invariant. -/
theorem createDOMNodeChildren_ok (xs : List Child) (k : Nat) :
    MatOKList k (createDOMNodeChildren xs k) := by
  cases xs with
  | nil =>
      rw [createDOMNodeChildren_nil]
      refine ⟨Nat.le_refl k, ?_, ?_, ?_, ?_⟩ <;> simp [attachIdsList_nil]
  | cons x rest =>
      obtain ⟨a1, a2, a3, a4, a5⟩ := createDOMNode_ok x k
      obtain ⟨b1, b2, b3, b4, b5⟩ :=
        createDOMNodeChildren_ok rest (createDOMNode x k).2.1
      have hsub := attachIdsList_appendChildNodes (createDOMNode x k).1
      rw [createDOMNodeChildren_cons]
      simp only [MatOKList]
      refine ⟨Nat.le_trans a1 b1, ?_, ?_, ?_, ?_⟩
      · intro ev hev
        rcases List.mem_append.1 hev with h | h
        · exact a2 ev h
        · exact b2 ev h
      · intro ev hev i hid
        rcases List.mem_append.1 hev with h | h
        · have ha := a3 ev h i hid
          omega
        · have hb := b3 ev h i hid
          omega
      · intro i hi
        rw [attachIdsList_append] at hi
        rcases List.mem_append.1 hi with h | h
        · have ha := a4 i (hsub.subset h)
          omega
        · have hb := b4 i h
          omega
      · rw [attachIdsList_append]
        refine List.Nodup.append (a5.sublist hsub) b5 ?_
        intro i hi1 hi2
        have ha := a4 i (hsub.subset hi1)
        have hb := b4 i hi2
        omega
end

theorem isCallEvOf_evInstId (i : Nat) (ev : Ev) (h : isCallEvOf i ev = true) :
    evInstId ev = some i := by
  cases ev <;> simp [isCallEvOf] at h <;> simp [evInstId, h]

theorem filter_call_nil {l : List Ev} {i : Nat}
    (h : ∀ ev ∈ l, ∀ j, evInstId ev = some j → j ≠ i) :
    l.filter (isCallEvOf i) = [] := by
  induction l with
  | nil => rfl
  | cons x xs ih =>
      have hx : isCallEvOf i x = false := by
        by_contra hc
        simp only [Bool.not_eq_false] at hc
        exact h x (List.mem_cons_self x xs) i (isCallEvOf_evInstId i x hc) rfl
      rw [List.filter_cons, hx]
      simp only [Bool.false_eq_true, if_false]
      exact ih fun ev hev j hj => h ev (List.mem_cons_of_mem x hev) j hj

theorem executeBeforeMount_filter (b1 b2 : Bool) (id : Nat) (f : Flags)
    (i : Nat) :
    List.Sublist ((executeBeforeMount b1 b2 id f).2.filter (isCallEvOf i))
      [Ev.beforeMountCall id] ∧
    (i ≠ id → (executeBeforeMount b1 b2 id f).2.filter (isCallEvOf i) = []) := by
  rcases executeBeforeMount_trace b1 b2 id f with h | h | h <;> rw [h] <;>
    by_cases hii : id = i <;>
    simp [List.filter_cons, isCallEvOf, evInstId, hii]

theorem executeDidMount_filter (b1 : Bool) (dOut : DidOutcome) (id : Nat)
    (f : Flags) (i : Nat) :
    List.Sublist ((executeDidMount b1 dOut id f).2.filter (isCallEvOf i))
      [Ev.didMountCall id] ∧
    (i ≠ id → (executeDidMount b1 dOut id f).2.filter (isCallEvOf i) = []) := by
  rcases executeDidMount_trace b1 dOut id f with h | h | h | h <;> rw [h] <;>
    by_cases hii : id = i <;>
    simp [List.filter_cons, isCallEvOf, evInstId, hii]

mutual
/-- Per-instance call events emitted by materialization keep the
canonical constructor, beforeMount, render, didMount order and fire at
most once each. -/
theorem createDOMNode_filter (e : Child) (k i : Nat) :
    List.Sublist (((createDOMNode e k).2.2).filter (isCallEvOf i))
      [Ev.ctor i, Ev.beforeMountCall i, Ev.renderCall i, Ev.didMountCall i] := by
  cases e with
  | cnull => exact List.nil_sublist _
  | cundef => exact List.nil_sublist _
  | cbool b => exact List.nil_sublist _
  | cstr s => exact List.nil_sublist _
  | cnum n => exact List.nil_sublist _
  | carr xs => exact createDOMNodeChildren_filter xs k i
  | cvel tag props children =>
      have hprops : ((applyPropsToElement props).2.2).filter (isCallEvOf i)
          = [] := by
        apply filter_call_nil
        intro ev hev j hj
        obtain ⟨t, rfl⟩ := applyPropsToElement_events props ev hev
        simp [evInstId] at hj
      cases children with
      | cundef =>
          show List.Sublist (((applyPropsToElement props).2.2).filter
            (isCallEvOf i)) _
          rw [hprops]
          exact List.nil_sublist _
      | carr xs =>
          show List.Sublist (((applyPropsToElement props).2.2 ++
            (createDOMNodeChildren xs k).2.2).filter (isCallEvOf i)) _
          rw [List.filter_append, hprops, List.nil_append]
          exact createDOMNodeChildren_filter xs k i
      | cnull =>
          show List.Sublist (((applyPropsToElement props).2.2 ++
            (createDOMNode Child.cnull k).2.2).filter (isCallEvOf i)) _
          rw [List.filter_append, hprops, List.nil_append]
          exact createDOMNode_filter Child.cnull k i
      | cbool b =>
          show List.Sublist (((applyPropsToElement props).2.2 ++
            (createDOMNode (Child.cbool b) k).2.2).filter (isCallEvOf i)) _
          rw [List.filter_append, hprops, List.nil_append]
          exact createDOMNode_filter (Child.cbool b) k i
      | cstr s =>
          show List.Sublist (((applyPropsToElement props).2.2 ++
            (createDOMNode (Child.cstr s) k).2.2).filter (isCallEvOf i)) _
          rw [List.filter_append, hprops, List.nil_append]
          exact createDOMNode_filter (Child.cstr s) k i
      | cnum n =>
          show List.Sublist (((applyPropsToElement props).2.2 ++
            (createDOMNode (Child.cnum n) k).2.2).filter (isCallEvOf i)) _
          rw [List.filter_append, hprops, List.nil_append]
          exact createDOMNode_filter (Child.cnum n) k i
      | cvel t2 p2 c2 =>
          show List.Sublist (((applyPropsToElement props).2.2 ++
            (createDOMNode (Child.cvel t2 p2 c2) k).2.2).filter
              (isCallEvOf i)) _
          rw [List.filter_append, hprops, List.nil_append]
          exact createDOMNode_filter (Child.cvel t2 p2 c2) k i
      | cvcomp spec =>
          show List.Sublist (((applyPropsToElement props).2.2 ++
            (createDOMNode (Child.cvcomp spec) k).2.2).filter
              (isCallEvOf i)) _
          rw [List.filter_append, hprops, List.nil_append]
          exact createDOMNode_filter (Child.cvcomp spec) k i
  | cvcomp spec =>
      cases spec with
      | mk b1 b2 b3 dOut b4 aOut body =>
          rw [createDOMNode_cvcomp_trace]
          rw [List.filter_append, List.filter_append, List.filter_append,
            List.filter_cons]
          by_cases hik : i = k
          · subst hik
            have hctor : isCallEvOf i (Ev.ctor i) = true := by
              simp [isCallEvOf]
            have hrender : [Ev.renderCall i].filter (isCallEvOf i) =
                [Ev.renderCall i] := by
              simp [List.filter_cons, isCallEvOf]
            have hbody : ((createDOMNode body (i + 1)).2.2).filter
                (isCallEvOf i) = [] := by
              apply filter_call_nil
              intro ev hev j hj
              obtain ⟨ih1, ih2, ih3, ih4, ih5⟩ := createDOMNode_ok body (i + 1)
              have := ih3 ev hev j hj
              omega
            rw [hctor, hrender, hbody]
            simp only [if_true, List.append_nil]
            have h1 := (executeBeforeMount_filter b1 b2 i freshFlags i).1
            have h2 := (executeDidMount_filter b3 dOut i
              (executeBeforeMount b1 b2 i freshFlags).1 i).1
            have : List.Sublist
                ((Ev.ctor i :: (executeBeforeMount b1 b2 i freshFlags).2.filter
                  (isCallEvOf i)) ++ [Ev.renderCall i] ++
                  (executeDidMount b3 dOut i
                    (executeBeforeMount b1 b2 i freshFlags).1).2.filter
                      (isCallEvOf i))
                ([Ev.ctor i] ++ [Ev.beforeMountCall i] ++ [Ev.renderCall i] ++
                  [Ev.didMountCall i]) := by
              simp only [List.append_assoc, List.cons_append, List.nil_append]
              exact List.Sublist.cons₂ _ (h1.append (List.Sublist.cons₂ _
                (by simpa using h2)))
            simpa using this
          · have hctor : isCallEvOf i (Ev.ctor k) = false := by
              simp [isCallEvOf]
              omega
            have hrender : [Ev.renderCall k].filter (isCallEvOf i) = [] := by
              simp [List.filter_cons, isCallEvOf]
              omega
            have h1 := (executeBeforeMount_filter b1 b2 k freshFlags i).2 hik
            have h2 := (executeDidMount_filter b3 dOut k
              (executeBeforeMount b1 b2 k freshFlags).1 i).2 hik
            rw [hctor, hrender, h1, h2]
            simp only [Bool.false_eq_true, if_false, List.nil_append,
              List.append_nil]
            exact createDOMNode_filter body (k + 1) i

/-- List form of the per-instance ordering for materialization. -/
theorem createDOMNodeChildren_filter (xs : List Child) (k i : Nat) :
    List.Sublist (((createDOMNodeChildren xs k).2.2).filter (isCallEvOf i))
      [Ev.ctor i, Ev.beforeMountCall i, Ev.renderCall i, Ev.didMountCall i] := by
  cases xs with
  | nil =>
      rw [createDOMNodeChildren_nil]
      exact List.nil_sublist _
  | cons x rest =>
      rw [createDOMNodeChildren_cons]
      show List.Sublist (((createDOMNode x k).2.2 ++
        (createDOMNodeChildren rest (createDOMNode x k).2.1).2.2).filter
          (isCallEvOf i)) _
      rw [List.filter_append]
      by_cases hik : i < (createDOMNode x k).2.1
      · have h2 : ((createDOMNodeChildren rest
            (createDOMNode x k).2.1).2.2).filter (isCallEvOf i) = [] := by
          apply filter_call_nil
          intro ev hev j hj
          obtain ⟨b1, b2, b3, b4, b5⟩ :=
            createDOMNodeChildren_ok rest (createDOMNode x k).2.1
          have := b3 ev hev j hj
          omega
        rw [h2, List.append_nil]
        exact createDOMNode_filter x k i
      · have h1 : ((createDOMNode x k).2.2).filter (isCallEvOf i) = [] := by
          apply filter_call_nil
          intro ev hev j hj
          obtain ⟨a1, a2, a3, a4, a5⟩ := createDOMNode_ok x k
          have := a3 ev hev j hj
          omega
        rw [h1, List.nil_append]
        exact createDOMNodeChildren_filter rest (createDOMNode x k).2.1 i
end

theorem process_text (s : String) (a : Option Attach) :
    processAfterMountRecursively (.text s a) =
      (DNode.text s none, processAttachOpt a) := rfl

theorem process_elem (t : String) (ats : List (String × String))
    (ls : List String) (cs : List DNode) (a : Option Attach) :
    processAfterMountRecursively (.elem t ats ls cs a) =
      (DNode.elem t ats ls (processChildNodes cs).1 none,
        processAttachOpt a ++ (processChildNodes cs).2) := rfl

theorem process_frag (cs : List DNode) (a : Option Attach) :
    processAfterMountRecursively (.frag cs a) =
      (DNode.frag (processChildNodes cs).1 none,
        processAttachOpt a ++ (processChildNodes cs).2) := rfl

theorem processChildNodes_nil : processChildNodes [] = ([], []) := rfl

theorem processChildNodes_cons (x : DNode) (xs : List DNode) :
    processChildNodes (x :: xs) =
      ((processAfterMountRecursively x).1 :: (processChildNodes xs).1,
        (processAfterMountRecursively x).2 ++ (processChildNodes xs).2) := rfl

/-- Every event of the per-node attachment step is the afterMount call,
the attachment cleanup, or the logged error of that attachment. -/
theorem processNodeAttach_mem (a : Attach) :
    ∀ ev ∈ processNodeAttach a, ev = Ev.afterMountCall a.id ∨
      ev = Ev.attachCleared a.id ∨ ev = Ev.log "afterMount() error:" := by
  intro ev hev
  cases hbm : a.afterMountCalled <;> cases hha : a.hasAfterMount <;>
    cases hout : a.aftOut <;>
    simp [processNodeAttach, hbm, hha, hout] at hev <;> tauto

theorem processAttachOpt_mem (a : Option Attach) :
    ∀ ev ∈ processAttachOpt a, ∃ b, a = some b ∧
      (ev = Ev.afterMountCall b.id ∨ ev = Ev.attachCleared b.id ∨
        ev = Ev.log "afterMount() error:") := by
  intro ev hev
  cases a with
  | none => exact absurd hev (List.not_mem_nil ev)
  | some b => exact ⟨b, rfl, processNodeAttach_mem b ev hev⟩

theorem processAttachOpt_count (a : Option Attach) (i : Nat) :
    (processAttachOpt a).count (Ev.afterMountCall i) ≤
      ((a.map (·.id)).toList).count i := by
  cases a with
  | none => exact Nat.le_refl 0
  | some b =>
      by_cases hbi : b.id = i
      · cases hbm : b.afterMountCalled <;> cases hha : b.hasAfterMount <;>
          cases hout : b.aftOut <;>
          simp [processAttachOpt, processNodeAttach, hbm, hha, hout, hbi,
            List.count_cons]
      · cases hbm : b.afterMountCalled <;> cases hha : b.hasAfterMount <;>
          cases hout : b.aftOut <;>
          simp [processAttachOpt, processNodeAttach, hbm, hha, hout, hbi,
            List.count_cons]

mutual
/-- Every event of the traversal is an afterMount call, an attachment
cleanup or log output. -/
theorem processAfterMount_events (n : DNode) :
    ∀ ev ∈ (processAfterMountRecursively n).2, isPostEv ev = true := by
  cases n with
  | text s a =>
      rw [process_text]
      intro ev hev
      obtain ⟨b, _, hb⟩ := processAttachOpt_mem a ev hev
      rcases hb with rfl | rfl | rfl <;> rfl
  | elem t ats ls cs a =>
      rw [process_elem]
      intro ev hev
      rcases List.mem_append.1 hev with h | h
      · obtain ⟨b, _, hb⟩ := processAttachOpt_mem a ev h
        rcases hb with rfl | rfl | rfl <;> rfl
      · exact processChildNodes_events cs ev h
  | frag cs a =>
      rw [process_frag]
      intro ev hev
      rcases List.mem_append.1 hev with h | h
      · obtain ⟨b, _, hb⟩ := processAttachOpt_mem a ev h
        rcases hb with rfl | rfl | rfl <;> rfl
      · exact processChildNodes_events cs ev h

/-- List form of the traversal event-kind lemma. -/
theorem processChildNodes_events (cs : List DNode) :
    ∀ ev ∈ (processChildNodes cs).2, isPostEv ev = true := by
  cases cs with
  | nil =>
      rw [processChildNodes_nil]
      intro ev hev
      exact absurd hev (List.not_mem_nil ev)
  | cons x xs =>
      rw [processChildNodes_cons]
      intro ev hev
      rcases List.mem_append.1 hev with h | h
      · exact processAfterMount_events x ev h
      · exact processChildNodes_events xs ev h
end

mutual
/-- The traversal fires afterMount at most as often per instance as the
instance is attached in the tree. -/
theorem processAfterMount_count (n : DNode) (i : Nat) :
    ((processAfterMountRecursively n).2).count (Ev.afterMountCall i) ≤
      (attachIds n).count i := by
  cases n with
  | text s a =>
      rw [process_text]
      exact processAttachOpt_count a i
  | elem t ats ls cs a =>
      rw [process_elem]
      rw [List.count_append]
      have h1 := processAttachOpt_count a i
      have h2 := processChildNodes_count cs i
      have hd : attachIds (DNode.elem t ats ls cs a) =
          ((a.map (·.id)).toList) ++ attachIdsList cs := attachIds_decomp _
      rw [hd, List.count_append]
      omega
  | frag cs a =>
      rw [process_frag]
      rw [List.count_append]
      have h1 := processAttachOpt_count a i
      have h2 := processChildNodes_count cs i
      have hd : attachIds (DNode.frag cs a) =
          ((a.map (·.id)).toList) ++ attachIdsList cs := attachIds_decomp _
      rw [hd, List.count_append]
      omega

/-- List form of the traversal count lemma. -/
theorem processChildNodes_count (cs : List DNode) (i : Nat) :
    ((processChildNodes cs).2).count (Ev.afterMountCall i) ≤
      (attachIdsList cs).count i := by
  cases cs with
  | nil =>
      rw [processChildNodes_nil, attachIdsList_nil]
      exact Nat.le_refl 0
  | cons x xs =>
      rw [processChildNodes_cons, attachIdsList_cons, List.count_append,
        List.count_append]
      have h1 := processAfterMount_count x i
      have h2 := processChildNodes_count xs i
      omega
end

mutual
/-- afterMount and cleanup events in a traversal trace name only
attachments present in the traversed tree. -/
theorem processAfterMount_memAttach (n : DNode) (i : Nat) :
    (Ev.afterMountCall i ∈ (processAfterMountRecursively n).2 →
      i ∈ attachIds n) ∧
    (Ev.attachCleared i ∈ (processAfterMountRecursively n).2 →
      i ∈ attachIds n) := by
  cases n with
  | text s a =>
      rw [process_text]
      constructor <;> intro hev <;>
        obtain ⟨b, rfl, hb⟩ := processAttachOpt_mem a _ hev <;>
        rcases hb with hb | hb | hb <;> simp_all [attachIds]
  | elem t ats ls cs a =>
      rw [process_elem]
      rw [attachIds_decomp]
      constructor <;> intro hev <;> rcases List.mem_append.1 hev with h | h
      · obtain ⟨b, rfl, hb⟩ := processAttachOpt_mem a _ h
        rcases hb with hb | hb | hb <;> simp at hb
        rw [hb]
        exact List.mem_append_left _ (by simp [getAttach])
      · exact List.mem_append_right _
          ((processChildNodes_memAttach cs i).1 h)
      · obtain ⟨b, rfl, hb⟩ := processAttachOpt_mem a _ h
        rcases hb with hb | hb | hb <;> simp at hb
        rw [hb]
        exact List.mem_append_left _ (by simp [getAttach])
      · exact List.mem_append_right _
          ((processChildNodes_memAttach cs i).2 h)
  | frag cs a =>
      rw [process_frag]
      rw [attachIds_decomp]
      constructor <;> intro hev <;> rcases List.mem_append.1 hev with h | h
      · obtain ⟨b, rfl, hb⟩ := processAttachOpt_mem a _ h
        rcases hb with hb | hb | hb <;> simp at hb
        rw [hb]
        exact List.mem_append_left _ (by simp [getAttach])
      · exact List.mem_append_right _
          ((processChildNodes_memAttach cs i).1 h)
      · obtain ⟨b, rfl, hb⟩ := processAttachOpt_mem a _ h
        rcases hb with hb | hb | hb <;> simp at hb
        rw [hb]
        exact List.mem_append_left _ (by simp [getAttach])
      · exact List.mem_append_right _
          ((processChildNodes_memAttach cs i).2 h)

/-- List form of the traversal attachment-membership lemma. -/
theorem processChildNodes_memAttach (cs : List DNode) (i : Nat) :
    (Ev.afterMountCall i ∈ (processChildNodes cs).2 →
      i ∈ attachIdsList cs) ∧
    (Ev.attachCleared i ∈ (processChildNodes cs).2 →
      i ∈ attachIdsList cs) := by
  cases cs with
  | nil =>
      rw [processChildNodes_nil, attachIdsList_nil]
      constructor <;> intro hev <;> exact absurd hev (List.not_mem_nil _)
  | cons x xs =>
      rw [processChildNodes_cons, attachIdsList_cons]
      constructor <;> intro hev <;> rcases List.mem_append.1 hev with h | h
      · exact List.mem_append_left _ ((processAfterMount_memAttach x i).1 h)
      · exact List.mem_append_right _ ((processChildNodes_memAttach xs i).1 h)
      · exact List.mem_append_left _ ((processAfterMount_memAttach x i).2 h)
      · exact List.mem_append_right _ ((processChildNodes_memAttach xs i).2 h)
end

mutual
/-- The traversal removes every attachment from the tree. -/
theorem processAfterMount_clears (n : DNode) :
    noAttachments (processAfterMountRecursively n).1 = true := by
  cases n with
  | text s a => rfl
  | elem t ats ls cs a =>
      rw [process_elem]
      show (Option.isNone (none : Option Attach) &&
        noAttachmentsList (processChildNodes cs).1) = true
      rw [processChildNodes_clears cs]
      rfl
  | frag cs a =>
      rw [process_frag]
      show (Option.isNone (none : Option Attach) &&
        noAttachmentsList (processChildNodes cs).1) = true
      rw [processChildNodes_clears cs]
      rfl

/-- List form of the traversal cleanup lemma. -/
theorem processChildNodes_clears (cs : List DNode) :
    noAttachmentsList (processChildNodes cs).1 = true := by
  cases cs with
  | nil => rfl
  | cons x xs =>
      rw [processChildNodes_cons]
      show (noAttachments (processAfterMountRecursively x).1 &&
        noAttachmentsList (processChildNodes xs).1) = true
      rw [processAfterMount_clears x, processChildNodes_clears xs]
      rfl
end

theorem attachIds_afterAppend_count (n : DNode) (i : Nat) :
    (attachIds (afterAppendNode n)).count i ≤ (attachIds n).count i := by
  cases n with
  | frag cs a =>
      show (attachIds (DNode.frag [] a)).count i ≤
        (attachIds (DNode.frag cs a)).count i
      rw [attachIds_decomp (DNode.frag [] a),
        attachIds_decomp (DNode.frag cs a)]
      simp only [getAttach, nodeChildren, attachIdsList_nil,
        List.append_nil, List.count_append]
      omega
  | text s a => exact Nat.le_refl _
  | elem t ats ls cs a => exact Nat.le_refl _

theorem post_filter_nil {l : List Ev} {i : Nat}
    (hk : ∀ ev ∈ l, isPostEv ev = true)
    (hm : Ev.afterMountCall i ∉ l) :
    l.filter (isCallEvOf i) = [] := by
  induction l with
  | nil => rfl
  | cons x xs ih =>
      have hx : isCallEvOf i x = false := by
        by_contra hc
        simp only [Bool.not_eq_false] at hc
        have hpost := hk x (List.mem_cons_self x xs)
        cases x with
        | afterMountCall j =>
            simp [isCallEvOf] at hc
            rw [hc] at hm
            exact hm (List.mem_cons_self _ _)
        | ctor j => simp [isPostEv] at hpost
        | beforeMountCall j => simp [isPostEv] at hpost
        | renderCall j => simp [isPostEv] at hpost
        | didMountCall j => simp [isPostEv] at hpost
        | domInsert => simp [isCallEvOf] at hc
        | attachCleared j => simp [isCallEvOf] at hc
        | log t => simp [isCallEvOf] at hc
      rw [List.filter_cons, hx]
      simp only [Bool.false_eq_true, if_false]
      exact ih (fun ev hev => hk ev (List.mem_cons_of_mem x hev))
        (fun hmem => hm (List.mem_cons_of_mem x hmem))

theorem post_filter_sublist (l : List Ev) (i : Nat)
    (hk : ∀ ev ∈ l, isPostEv ev = true)
    (hc : l.count (Ev.afterMountCall i) ≤ 1) :
    List.Sublist (l.filter (isCallEvOf i)) [Ev.afterMountCall i] := by
  induction l with
  | nil => exact List.nil_sublist _
  | cons x xs ih =>
      by_cases hx : isCallEvOf i x = true
      · have hxe : x = Ev.afterMountCall i := by
          have hpost := hk x (List.mem_cons_self x xs)
          cases x with
          | afterMountCall j =>
              simp [isCallEvOf] at hx
              rw [hx]
          | ctor j => simp [isPostEv] at hpost
          | beforeMountCall j => simp [isPostEv] at hpost
          | renderCall j => simp [isPostEv] at hpost
          | didMountCall j => simp [isPostEv] at hpost
          | domInsert => simp [isCallEvOf] at hx
          | attachCleared j => simp [isCallEvOf] at hx
          | log t => simp [isCallEvOf] at hx
        subst hxe
        have hcz : xs.count (Ev.afterMountCall i) = 0 := by
          rw [List.count_cons] at hc
          simp only [beq_self_eq_true, if_true] at hc
          omega
        have hnm : Ev.afterMountCall i ∉ xs := by
          intro hmem
          have := List.count_pos_iff.2 hmem
          omega
        rw [List.filter_cons, hx]
        simp only [if_true]
        rw [post_filter_nil (fun ev hev => hk ev (List.mem_cons_of_mem _ hev))
          hnm]
      · simp only [Bool.not_eq_true] at hx
        rw [List.filter_cons, hx]
        simp only [Bool.false_eq_true, if_false]
        refine ih (fun ev hev => hk ev (List.mem_cons_of_mem x hev)) ?_
        rw [List.count_cons] at hc
        omega

/-- C1.  For every component instance, the calls observed across a full
render keep the canonical order constructor, beforeMount, render,
didMount, afterMount, each of the three hooks firing at most once (the
filtered trace is a sublist of the five-event sequence); and the trace
splits at the DOM-insertion marker, with only synchronous-mount events
(constructor/beforeMount/render/didMount calls and logs) before it and
only traversal events (afterMount calls, attachment cleanup, logs) after
it. -/
theorem lifecycle_order_and_once (e : Child) (i : Nat) :
    List.Sublist ((renderTrace e).filter (isCallEvOf i))
      [Ev.ctor i, Ev.beforeMountCall i, Ev.renderCall i,
       Ev.didMountCall i, Ev.afterMountCall i] ∧
    (∃ pre post, renderTrace e = pre ++ Ev.domInsert :: post ∧
      (∀ ev ∈ pre, isMatEv ev = true) ∧
      (∀ ev ∈ post, isPostEv ev = true)) := by
  have hdef : renderTrace e =
      ((createDOMNode e 0).2.2 ++ [Ev.domInsert]) ++
        (processAfterMountRecursively
          (afterAppendNode (createDOMNode e 0).1)).2 := rfl
  obtain ⟨m1, m2, m3, m4, m5⟩ := createDOMNode_ok e 0
  constructor
  · rw [hdef, List.filter_append, List.filter_append]
    have hins : [Ev.domInsert].filter (isCallEvOf i) = [] := rfl
    rw [hins, List.append_nil]
    have hmat := createDOMNode_filter e 0 i
    have hpostk := processAfterMount_events
      (afterAppendNode (createDOMNode e 0).1)
    have hcount : ((processAfterMountRecursively
        (afterAppendNode (createDOMNode e 0).1)).2).count
          (Ev.afterMountCall i) ≤ 1 := by
      have h1 := processAfterMount_count
        (afterAppendNode (createDOMNode e 0).1) i
      have h2 := attachIds_afterAppend_count (createDOMNode e 0).1 i
      have h3 : (attachIds (createDOMNode e 0).1).count i ≤ 1 :=
        List.nodup_iff_count_le_one.1 m5 i
      omega
    have hpost := post_filter_sublist _ i hpostk hcount
    have hcomb := List.Sublist.append hmat hpost
    simpa using hcomb
  · refine ⟨(createDOMNode e 0).2.2,
      (processAfterMountRecursively
        (afterAppendNode (createDOMNode e 0).1)).2, ?_, m2, ?_⟩
    · rw [hdef]
      simp [List.append_assoc]
    · exact processAfterMount_events _

/-- Splitting of the per-attachment step into the hook-call events and
the final cleanup event. -/
theorem processNodeAttach_split (a : Attach) :
    ∃ c, processNodeAttach a = c ++ [Ev.attachCleared a.id] ∧
      ∀ ev ∈ c, ev = Ev.afterMountCall a.id ∨
        ev = Ev.log "afterMount() error:" := by
  cases hbm : a.afterMountCalled <;> cases hha : a.hasAfterMount <;>
    cases hout : a.aftOut <;>
    refine ⟨_, rfl, ?_⟩ <;> intro ev hev <;>
    simp [hbm, hha, hout] at hev <;> tauto

/-- C2.  During construction, every lifecycle-call event of a nested
instance precedes the didMount call of the outer instance (materialization of
the rendered tree completes before the didMount executor of the parent runs);
in the post-insertion traversal, the afterMount call of the instance
attached at a node precedes the afterMount call of every other
instance in the trace of that node (the traversal handles a node before its
childNodes). -/
theorem nested_mount_order :
    (∀ (b1 b2 : Bool) (dOut : DidOutcome) (b4 : Bool) (aOut : AfterOutcome)
        (body : Child) (k j : Nat) (ev : Ev),
      j ≠ k → isCallEvOf j ev = true →
      Ev.didMountCall k ∈
        (createDOMNode (.cvcomp (.mk b1 b2 true dOut b4 aOut body)) k).2.2 ∧
      (ev ∈ (createDOMNode (.cvcomp (.mk b1 b2 true dOut b4 aOut body)) k).2.2 →
        precedes ev (Ev.didMountCall k)
          (createDOMNode (.cvcomp (.mk b1 b2 true dOut b4 aOut body)) k).2.2)) ∧
    (∀ (n : DNode) (a : Attach) (b : Nat),
      getAttach n = some a → a.afterMountCalled = false →
      a.hasAfterMount = true → b ≠ a.id →
      precedes (Ev.afterMountCall a.id) (Ev.afterMountCall b)
        (processAfterMountRecursively n).2) := by
  constructor
  · intro b1 b2 dOut b4 aOut body k j ev hne hcall
    have hdmf : (executeBeforeMount b1 b2 k freshFlags).1.didMountCalled
        = false := by
      rw [(executeBeforeMount_preserves b1 b2 k freshFlags).1]
      rfl
    have hBmem : Ev.didMountCall k ∈
        (executeDidMount true dOut k
          (executeBeforeMount b1 b2 k freshFlags).1).2 := by
      cases dOut <;> simp [executeDidMount, hdmf]
    have hBchar : ∀ x ∈ (executeDidMount true dOut k
        (executeBeforeMount b1 b2 k freshFlags).1).2,
        x = Ev.didMountCall k ∨ ∃ t, x = Ev.log t := by
      intro x hx
      rcases executeDidMount_trace true dOut k
          (executeBeforeMount b1 b2 k freshFlags).1 with h | h | h | h <;>
        rw [h] at hx <;> simp at hx <;> tauto
    have hAnodm : Ev.didMountCall k ∉
        ((Ev.ctor k :: (executeBeforeMount b1 b2 k freshFlags).2) ++
          [Ev.renderCall k]) ++ (createDOMNode body (k + 1)).2.2 := by
      intro hmem
      rcases List.mem_append.1 hmem with h | hbody
      · rcases List.mem_append.1 h with h2 | hr
        · rcases List.mem_cons.1 h2 with h3 | hbm
          · cases h3
          · rcases executeBeforeMount_trace b1 b2 k freshFlags with
              h4 | h4 | h4 <;> rw [h4] at hbm <;> simp at hbm
        · simp at hr
      · obtain ⟨ih1, ih2, ih3, ih4, ih5⟩ := createDOMNode_ok body (k + 1)
        have := ih3 _ hbody k rfl
        omega
    rw [createDOMNode_cvcomp_trace]
    constructor
    · exact List.mem_append_right _ hBmem
    · intro hev
      have hevA : ev ∈
          ((Ev.ctor k :: (executeBeforeMount b1 b2 k freshFlags).2) ++
            [Ev.renderCall k]) ++ (createDOMNode body (k + 1)).2.2 := by
        rcases List.mem_append.1 hev with h | hB
        · exact h
        · rcases hBchar ev hB with rfl | ⟨t, rfl⟩
          · exfalso
            simp [isCallEvOf] at hcall
            exact hne hcall.symm
          · simp [isCallEvOf] at hcall
      exact precedes_of_append hevA hAnodm
  · intro n a b hga hamc hham hne
    have h1 : Ev.afterMountCall a.id ∈ processNodeAttach a := by
      simp [processNodeAttach, hamc, hham]
    have h2 : Ev.afterMountCall b ∉ processNodeAttach a := by
      intro hmem
      rcases processNodeAttach_mem a _ hmem with h | h | h
      · injection h with h
        exact hne h
      · cases h
      · cases h
    cases n with
    | text s a2 =>
        have ha2 : a2 = some a := hga
        subst ha2
        rw [process_text]
        have hp := precedes_of_append (B := []) h1 h2
        rwa [List.append_nil] at hp
    | elem t ats ls cs a2 =>
        have ha2 : a2 = some a := hga
        subst ha2
        rw [process_elem]
        exact precedes_of_append h1 h2
    | frag cs a2 =>
        have ha2 : a2 = some a := hga
        subst ha2
        rw [process_frag]
        exact precedes_of_append h1 h2

/-- Witness for C2 at a concrete nested tree: child instance 1 is
constructed before the didMount of parent instance 0, and the
afterMount of the parent precedes that of the child in the traversal of a concrete
attached DOM tree. -/
theorem nested_mount_order_witness :
    (Ev.didMountCall 0 ∈
      (createDOMNode (.cvcomp (.mk true false true .ok true .ok
        (.cvcomp (.mk false false true .ok false .ok (.cstr "x"))))) 0).2.2 ∧
      (Ev.ctor 1 ∈
        (createDOMNode (.cvcomp (.mk true false true .ok true .ok
          (.cvcomp (.mk false false true .ok false .ok (.cstr "x"))))) 0).2.2 →
        precedes (Ev.ctor 1) (Ev.didMountCall 0)
          (createDOMNode (.cvcomp (.mk true false true .ok true .ok
            (.cvcomp (.mk false false true .ok false .ok (.cstr "x"))))) 0).2.2)) ∧
    precedes (Ev.afterMountCall 0) (Ev.afterMountCall 1)
      (processAfterMountRecursively
        (.elem "div" [] [] [.text "x" (some ⟨1, false, true, .ok⟩)]
          (some ⟨0, false, true, .ok⟩))).2 :=
  ⟨nested_mount_order.1 true false .ok true .ok
      (.cvcomp (.mk false false true .ok false .ok (.cstr "x"))) 0 1
      (Ev.ctor 1) (by decide) rfl,
   nested_mount_order.2
      (.elem "div" [] [] [.text "x" (some ⟨1, false, true, .ok⟩)]
        (some ⟨0, false, true, .ok⟩))
      ⟨0, false, true, .ok⟩ 1 rfl rfl rfl (by decide)⟩

/-- C4.  When beforeMount throws, the error is caught and logged under
the fixed tag and the mount continues: the trace shows constructor,
beforeMount, the logged error, then the render call, the materialized
render body and the didMount executor; the produced DOM node is still
the materialized render body with the instance attached; and the
mounting flag is cleared on the error path. -/
theorem beforeMount_error_isolated (b3 : Bool) (dOut : DidOutcome)
    (b4 : Bool) (aOut : AfterOutcome) (body : Child) (k : Nat) :
    (createDOMNode (.cvcomp (.mk true true b3 dOut b4 aOut body)) k).2.2 =
      (((Ev.ctor k ::
          [Ev.beforeMountCall k, Ev.log "beforeMount() error:"]) ++
        [Ev.renderCall k]) ++ (createDOMNode body (k + 1)).2.2) ++
        (executeDidMount b3 dOut k
          (executeBeforeMount true true k freshFlags).1).2 ∧
    (createDOMNode (.cvcomp (.mk true true b3 dOut b4 aOut body)) k).1 =
      attachComponentToNode (createDOMNode body (k + 1)).1
        ⟨k, false, b4, aOut⟩ ∧
    (executeBeforeMount true true k freshFlags).1.isMounting = false := by
  refine ⟨rfl, ?_, rfl⟩
  have hflag : (executeDidMount b3 dOut k
      (executeBeforeMount true true k freshFlags).1).1.afterMountCalled
      = false := by
    rw [executeDidMount_preserves,
      (executeBeforeMount_preserves true true k freshFlags).2]
    rfl
  rw [createDOMNode_cvcomp_node, hflag]

/-- C6.  The post-insertion traversal deletes every attachment it
reaches: the processed tree carries no attachment; for a node with an
attachment the trace is the hook-call events (afterMount call and/or the
logged error — possibly none when the hook is not invocable) followed by
the cleanup event, all before the events of any child; and the events
of one node
never prevent the trace of its later siblings from occurring. -/
theorem afterMount_cleanup_isolation :
    (∀ n, noAttachments (processAfterMountRecursively n).1 = true) ∧
    (∀ n a, getAttach n = some a →
      ∃ c, (processAfterMountRecursively n).2 =
        (c ++ [Ev.attachCleared a.id]) ++
          (processChildNodes (nodeChildren n)).2 ∧
        ∀ ev ∈ c, ev = Ev.afterMountCall a.id ∨
          ev = Ev.log "afterMount() error:") ∧
    (∀ x xs ev, ev ∈ (processChildNodes xs).2 →
      ev ∈ (processChildNodes (x :: xs)).2) := by
  refine ⟨processAfterMount_clears, ?_, ?_⟩
  · intro n a hga
    obtain ⟨c, hc, hmem⟩ := processNodeAttach_split a
    cases n with
    | text s a2 =>
        have ha2 : a2 = some a := hga
        subst ha2
        refine ⟨c, ?_, hmem⟩
        rw [process_text]
        show processNodeAttach a =
          (c ++ [Ev.attachCleared a.id]) ++ ([] : List Ev)
        rw [hc, List.append_nil]
    | elem t ats ls cs a2 =>
        have ha2 : a2 = some a := hga
        subst ha2
        refine ⟨c, ?_, hmem⟩
        rw [process_elem]
        show processNodeAttach a ++ (processChildNodes cs).2 =
          (c ++ [Ev.attachCleared a.id]) ++ (processChildNodes cs).2
        rw [hc]
    | frag cs a2 =>
        have ha2 : a2 = some a := hga
        subst ha2
        refine ⟨c, ?_, hmem⟩
        rw [process_frag]
        show processNodeAttach a ++ (processChildNodes cs).2 =
          (c ++ [Ev.attachCleared a.id]) ++ (processChildNodes cs).2
        rw [hc]
  · intro x xs ev hev
    rw [processChildNodes_cons]
    exact List.mem_append_right _ hev

/-- Witness for C6 at concrete trees: a node whose afterMount throws is
cleaned up before its child is traversed, and a failing first sibling
does not stop the trace of the second sibling. -/
theorem afterMount_cleanup_isolation_witness :
    noAttachments (processAfterMountRecursively
      (.text "t" (some ⟨0, false, true, .throws⟩))).1 = true ∧
    (∃ c, (processAfterMountRecursively
        (.elem "div" [] [] [.text "x" (some ⟨1, false, true, .ok⟩)]
          (some ⟨0, false, true, .throws⟩))).2 =
      (c ++ [Ev.attachCleared 0]) ++
        (processChildNodes [DNode.text "x" (some ⟨1, false, true, .ok⟩)]).2 ∧
      ∀ ev ∈ c, ev = Ev.afterMountCall 0 ∨
        ev = Ev.log "afterMount() error:") ∧
    Ev.afterMountCall 1 ∈ (processChildNodes
      [DNode.text "f" (some ⟨0, false, true, .throws⟩),
       DNode.text "s" (some ⟨1, false, true, .ok⟩)]).2 :=
  ⟨afterMount_cleanup_isolation.1 (.text "t" (some ⟨0, false, true, .throws⟩)),
   afterMount_cleanup_isolation.2.1
     (.elem "div" [] [] [.text "x" (some ⟨1, false, true, .ok⟩)]
       (some ⟨0, false, true, .throws⟩)) ⟨0, false, true, .throws⟩ rfl,
   afterMount_cleanup_isolation.2.2
     (DNode.text "f" (some ⟨0, false, true, .throws⟩))
     [DNode.text "s" (some ⟨1, false, true, .ok⟩)]
     (Ev.afterMountCall 1) (by simp [processChildNodes_cons,
       processChildNodes_nil, processAfterMountRecursively, processAttachOpt,
       processNodeAttach])⟩

/-- C10.  A component whose render() returns an array, placed as a child
of an intrinsic element, gets its instance attached to the intermediate
DocumentFragment; appending the fragment moves only its children into
the element, so the attachment-carrying node never reaches the inserted
DOM, the traversal never fires the afterMount of that instance, and its
attachment is never cleared. -/
theorem fragment_attachment_never_processed (tag : String)
    (props : List (String × PropVal)) (b1 b2 b3 : Bool)
    (dOut : DidOutcome) (aOut : AfterOutcome) (xs : List Child) :
    (createDOMNode (.cvcomp (.mk b1 b2 b3 dOut true aOut (.carr xs))) 0).1 =
      DNode.frag (createDOMNodeChildren xs 1).1
        (some ⟨0, false, true, aOut⟩) ∧
    0 ∉ attachIdsList
      (render (.cvel tag props
        (.cvcomp (.mk b1 b2 b3 dOut true aOut (.carr xs))))).1 ∧
    Ev.afterMountCall 0 ∉ renderTrace
      (.cvel tag props (.cvcomp (.mk b1 b2 b3 dOut true aOut (.carr xs)))) ∧
    Ev.attachCleared 0 ∉ renderTrace
      (.cvel tag props (.cvcomp (.mk b1 b2 b3 dOut true aOut (.carr xs)))) := by
  have hflag : (executeDidMount b3 dOut 0
      (executeBeforeMount b1 b2 0 freshFlags).1).1.afterMountCalled
      = false := by
    rw [executeDidMount_preserves,
      (executeBeforeMount_preserves b1 b2 0 freshFlags).2]
    rfl
  have hcont : (render (.cvel tag props
      (.cvcomp (.mk b1 b2 b3 dOut true aOut (.carr xs))))).1 =
      [DNode.elem tag (applyPropsToElement props).1
        (applyPropsToElement props).2.1 (createDOMNodeChildren xs 1).1
        none] := rfl
  have hkidsOut : ∀ i ∈ attachIdsList (createDOMNodeChildren xs 1).1,
      1 ≤ i := by
    intro i hi
    obtain ⟨c1, c2, c3, c4, c5⟩ := createDOMNodeChildren_ok xs 1
    exact (c4 i hi).1
  have hdomIds : attachIds (DNode.elem tag (applyPropsToElement props).1
      (applyPropsToElement props).2.1 (createDOMNodeChildren xs 1).1 none) =
      attachIdsList (createDOMNodeChildren xs 1).1 := by
    rw [attachIds_decomp]
    simp [getAttach, nodeChildren]
  have htrace : renderTrace (.cvel tag props
      (.cvcomp (.mk b1 b2 b3 dOut true aOut (.carr xs)))) =
      ((createDOMNode (.cvel tag props
          (.cvcomp (.mk b1 b2 b3 dOut true aOut (.carr xs)))) 0).2.2 ++
        [Ev.domInsert]) ++
        (processAfterMountRecursively
          (DNode.elem tag (applyPropsToElement props).1
            (applyPropsToElement props).2.1 (createDOMNodeChildren xs 1).1
            none)).2 := rfl
  obtain ⟨m1, m2, m3, m4, m5⟩ := createDOMNode_ok
    (.cvel tag props (.cvcomp (.mk b1 b2 b3 dOut true aOut (.carr xs)))) 0
  refine ⟨?_, ?_, ?_, ?_⟩
  · rw [createDOMNode_cvcomp_node, hflag]
    rfl
  · intro hmem
    rw [hcont, attachIdsList_cons, attachIdsList_nil, List.append_nil,
      hdomIds] at hmem
    exact absurd (hkidsOut 0 hmem) (by omega)
  · intro hmem
    rw [htrace] at hmem
    rcases List.mem_append.1 hmem with h | hpost
    · rcases List.mem_append.1 h with hmat | hins
      · have := m2 _ hmat
        simp [isMatEv] at this
      · simp at hins
    · have h0 := (processAfterMount_memAttach _ 0).1 hpost
      rw [hdomIds] at h0
      exact absurd (hkidsOut 0 h0) (by omega)
  · intro hmem
    rw [htrace] at hmem
    rcases List.mem_append.1 hmem with h | hpost
    · rcases List.mem_append.1 h with hmat | hins
      · have := m2 _ hmat
        simp [isMatEv] at this
      · simp at hins
    · have h0 := (processAfterMount_memAttach _ 0).2 hpost
      rw [hdomIds] at h0
      exact absurd (hkidsOut 0 h0) (by omega)

/-- Witness for C1 at a concrete component tree and instance 0. -/
theorem lifecycle_order_and_once_witness :
    List.Sublist ((renderTrace (.cvcomp (.mk true false true .ok true .ok
        (.cstr "hi")))).filter (isCallEvOf 0))
      [Ev.ctor 0, Ev.beforeMountCall 0, Ev.renderCall 0,
       Ev.didMountCall 0, Ev.afterMountCall 0] ∧
    (∃ pre post, renderTrace (.cvcomp (.mk true false true .ok true .ok
        (.cstr "hi"))) = pre ++ Ev.domInsert :: post ∧
      (∀ ev ∈ pre, isMatEv ev = true) ∧
      (∀ ev ∈ post, isPostEv ev = true)) :=
  lifecycle_order_and_once
    (.cvcomp (.mk true false true .ok true .ok (.cstr "hi"))) 0

/-- Witness for C4 at a concrete throwing component. -/
theorem beforeMount_error_isolated_witness :
    (createDOMNode (.cvcomp (.mk true true true .ok true .ok
        (.cstr "x"))) 0).2.2 =
      (((Ev.ctor 0 ::
          [Ev.beforeMountCall 0, Ev.log "beforeMount() error:"]) ++
        [Ev.renderCall 0]) ++ (createDOMNode (.cstr "x") 1).2.2) ++
        (executeDidMount true .ok 0
          (executeBeforeMount true true 0 freshFlags).1).2 ∧
    (createDOMNode (.cvcomp (.mk true true true .ok true .ok
        (.cstr "x"))) 0).1 =
      attachComponentToNode (createDOMNode (.cstr "x") 1).1
        ⟨0, false, true, .ok⟩ ∧
    (executeBeforeMount true true 0 freshFlags).1.isMounting = false :=
  beforeMount_error_isolated true .ok true .ok (.cstr "x") 0

/-- Witness for C9 at a concrete hookless component. -/
theorem no_didMount_never_mounted_witness :
    (executeDidMount false .ok 0
        (executeBeforeMount true false 0 freshFlags).1).1 =
      (executeBeforeMount true false 0 freshFlags).1 ∧
    (executeDidMount false .ok 0
        (executeBeforeMount true false 0 freshFlags).1).1.isMounted
      = false ∧
    setState
        (executeDidMount false .ok 0
          (executeBeforeMount true false 0 freshFlags).1).1
        ([("n", (1 : Int))]) [("n", 2)] =
      .error "Cannot call setState() during constructor. Use this.state = \x7b...\x7d instead." :=
  no_didMount_never_mounted true false .ok 0 [("n", 1)] [("n", 2)]

/-- Witness for C10 at a concrete array-rendering component inside an
intrinsic element. -/
theorem fragment_attachment_never_processed_witness :
    (createDOMNode (.cvcomp (.mk true false true .ok true .ok
        (.carr [.cstr "a"]))) 0).1 =
      DNode.frag (createDOMNodeChildren [.cstr "a"] 1).1
        (some ⟨0, false, true, .ok⟩) ∧
    0 ∉ attachIdsList
      (render (.cvel "ul" []
        (.cvcomp (.mk true false true .ok true .ok (.carr [.cstr "a"]))))).1 ∧
    Ev.afterMountCall 0 ∉ renderTrace
      (.cvel "ul" [] (.cvcomp (.mk true false true .ok true .ok
        (.carr [.cstr "a"])))) ∧
    Ev.attachCleared 0 ∉ renderTrace
      (.cvel "ul" [] (.cvcomp (.mk true false true .ok true .ok
        (.carr [.cstr "a"])))) :=
  fragment_attachment_never_processed "ul" [] true false true .ok .ok
    [.cstr "a"]
